import Mathlib

/-!
# gosh: command templates and stream adapters

A shallow embedding of `sh.go`, `sh_errors.go` and `iox/writer.go`.

Go values with reference semantics are kept in an explicit `Heap`:
backing arrays of `[]string` and `[]byte` slices, `map[string]string`
objects, `bytes.Buffer` variables and channels.  A `CommandTemplate` is a plain value
whose `Args` field is a slice header and whose `Env` field is a map
reference, exactly as in Go, so that copying a template copies the header
and the reference but not what they point to.
-/

namespace Gosh

/-! ## Data model -/

/-- A byte sequence (`[]byte`, or the bytes of a Go `string`). -/
abbrev Bytes := List Nat

/-- The contents of a `map[string]string`, as its list of entries. -/
abbrev EnvMap := List (String × String)

/-- A `[]string` slice header: backing array, length and capacity.
The nil slice is the header with capacity zero. -/
structure StrSlice where
  ptr : Nat
  len : Nat
  cap : Nat
  deriving DecidableEq, Repr

/-- The nil `[]string`. -/
def StrSlice.nil : StrSlice := ⟨0, 0, 0⟩

/-- A channel: closed flag, buffer capacity, buffered values, number of
receivers blocked on it, and the values already handed to receivers. -/
structure Chan (α : Type) where
  closed : Bool
  cap : Nat
  queue : List α
  waiting : Nat
  delivered : List α
  deriving DecidableEq, Repr

/-- Every value ever sent on the channel, oldest first. -/
def Chan.sent {α : Type} (c : Chan α) : List α := c.delivered ++ c.queue

/-- A `[]byte` slice header: backing array, length and capacity. -/
structure ByteSlice where
  ptr : Nat
  len : Nat
  cap : Nat
  deriving DecidableEq, Repr

/-- The `bytes.Buffer` struct as far as writing goes: its `buf` slice.
Copying the struct copies this header, not the array behind it.  The read
offset is left out: nothing here reads from a buffer, so it stays zero
and the contents are `buf[0:len]`. -/
structure Buffer where
  buf : ByteSlice
  deriving DecidableEq, Repr

/-- The zero `bytes.Buffer`, whose `buf` is nil. -/
def Buffer.zero : Buffer := ⟨⟨0, 0, 0⟩⟩

/-- The values with reference semantics: backing arrays of `[]string`,
map objects, `bytes.Buffer` variables, channels, and backing arrays of
`[]byte`. -/
structure Heap where
  arrays : List (List String)
  maps : List EnvMap
  bufs : List Buffer
  chansString : List (Chan Bytes)
  chansBytes : List (Chan Bytes)
  bytes : List Bytes
  deriving DecidableEq, Repr

/-- The heap with nothing allocated. -/
def Heap.empty : Heap := ⟨[], [], [], [], [], []⟩

/-- The dynamic value held by the `interface{}` fields `In`, `Out`, `Err`. -/
inductive Endpoint
  /-- a value that implements `io.Writer` and is not a `*bytes.Buffer`
  (an `*os.File`, say) -/
  | stream (id : Nat)
  /-- a `*bytes.Buffer` -/
  | bufPtr (addr : Nat)
  /-- a `bytes.Buffer` held by value: the interface holds a copy of the
  struct -/
  | bufVal (b : Buffer)
  /-- a `chan<- string` -/
  | chanSendString (ch : Nat)
  /-- a `chan string` -/
  | chanString (ch : Nat)
  /-- a `chan<- []byte` -/
  | chanSendBytes (ch : Nat)
  /-- a `chan []byte` -/
  | chanBytes (ch : Nat)
  /-- a `string` -/
  | text (s : Bytes)
  /-- a `[]byte` -/
  | raw (b : Bytes)
  /-- a `Command` -/
  | command
  /-- a value of any other type -/
  | other (typeName : String) (comparable : Bool)
  deriving DecidableEq, Repr

/-- Modelled from the spec: the declaration of `Opts` is not among the
sources; it is the spec's options bundle, with the field names `bakeOpts`
reads.  Each field is optional, the zero value meaning "not set" (`""`
for `Cwd`, `nil` for the others). -/
structure Opts where
  Cwd : String
  In : Option Endpoint
  Out : Option Endpoint
  Err : Option Endpoint
  OkExit : Option (List Int)
  deriving DecidableEq, Repr

/-- The zero `Opts{}`. -/
def Opts.zero : Opts := ⟨"", none, none, none, none⟩

/-- Modelled from the spec: the declaration of `CommandTemplate` is not
among the sources; these are the fields of the spec's Command Template
under the names `sh.go` reads and writes.  `Env` is `none` for a nil map;
`debug` names the registered listener. -/
structure CommandTemplate where
  Cmd : String
  Args : StrSlice
  Env : Option Nat
  Cwd : String
  In : Option Endpoint
  Out : Option Endpoint
  Err : Option Endpoint
  OkExit : Option (List Int)
  debug : Option Nat
  deriving DecidableEq, Repr

/-- The zero value `var cmdt CommandTemplate`. -/
def CommandTemplate.zero : CommandTemplate :=
  ⟨"", StrSlice.nil, none, "", none, none, none, none, none⟩

/-- A Go type as far as `reflect.Type.Name` tells types apart: a defined
(named) type, or a type literal such as `[]string`, which has no name. -/
inductive GoType
  | defined (name : String)
  | literal (repr : String)
  deriving DecidableEq, Repr

/-- `reflect.Type.Name`: the name of a defined type, empty otherwise. -/
def GoType.Name : GoType → String
  | .defined n => n
  | .literal _ => ""

/-- `reflect.Type.String`. -/
def GoType.String : GoType → String
  | .defined n => n
  | .literal r => r

/-- A `reflect.Value` as far as `whoru` inspects it. -/
inductive RValue
  /-- the zero Value, of kind `Invalid` (from a nil interface or the
  `Elem` of a nil pointer) -/
  | zero
  /-- kind `Ptr`, with what `Elem` returns -/
  | ptr (elem : RValue)
  /-- kind `Interface`, with what `Elem` returns -/
  | iface (elem : RValue)
  /-- any other kind, with its type -/
  | plain (typ : GoType)
  deriving DecidableEq, Repr

/-- One argument of a `Command` call, an `interface{}`. -/
inductive Modifier
  | str (s : String)
  | env (m : EnvMap)
  | clearEnv
  | opts (o : Opts)
  /-- the private constant `expose` -/
  | exposeFlag
  /-- a value of any other dynamic type (`zero` for a nil interface) -/
  | other (v : RValue)
  deriving DecidableEq, Repr

/-- The values this code panics with. -/
inductive Panic
  | IncomprehensibleCommandModifier (wat : Modifier)
  | FailureExitCode (cmdname : String) (code : Int)
  | WriterUnrefinableFromInterface (wat : Option Endpoint)
  /-- `fmt.Errorf("not yet implemented")`, for a `Command` as input -/
  | notYetImplemented
  /-- a panic of the Go runtime or of `reflect` -/
  | runtimeError (msg : String)
  /-- a panic raised by a collaborator outside `sh.go` -/
  | foreign (msg : String)
  deriving DecidableEq, Repr

/-- What `WriterFromInterface` returns. -/
inductive Writer
  | stream (id : Nat)
  | buffer (addr : Nat)
  | writerChanString (ch : Nat)
  | writerChanByteSlice (ch : Nat)
  deriving DecidableEq, Repr

/-- The `error` returned by a `Write`. -/
inductive IoError
  | EOF
  deriving DecidableEq, Repr

/-- The `exec.Cmd` that `Start` fills in. -/
structure ExecCmd where
  Path : String
  Args : List String
  Env : Option (List String)
  Dir : String
  Stdin : Option Nat
  Stdout : Option Writer
  Stderr : Option Writer
  deriving DecidableEq, Repr

/-- Modelled from the spec: a `RunningCommand`, whose file is not among
the sources, "wraps the live process": here, the `exec.Cmd` it was made
from. -/
structure RunningCommand where
  cmd : ExecCmd
  deriving DecidableEq, Repr

/-- What a debug listener can read through the `*CommandTemplate` it is
handed. -/
structure TemplateView where
  Cmd : String
  Args : List String
  Env : Option EnvMap
  Cwd : String
  In : Option Endpoint
  Out : Option Endpoint
  Err : Option Endpoint
  OkExit : Option (List Int)
  deriving DecidableEq, Repr

/-- The observable steps of an execution. -/
inductive Event
  | debugCall (cb : Nat) (seen : TemplateView)
  | spawn (cmd : ExecCmd)
  deriving DecidableEq, Repr

/-- Modelled from the spec: the collaborators whose files are not among
the sources, taken as parameters: the read-side resolver
`iox.ReaderFromInterface`, whether `NewRunningCommand(rcmd).Start()`
fails, and the exit status that `Wait` records and `GetExitCode`
returns. -/
structure World where
  ReaderFromInterface : Endpoint → Except Panic Nat
  spawnFails : ExecCmd → Option Panic
  exitCode : ExecCmd → Int

/-- A `Command`: a closure over one `CommandTemplate` variable. -/
structure Command where
  cmdt : CommandTemplate
  deriving DecidableEq, Repr

/-- What a call of the variadic closure returns. -/
inductive CallResult
  /-- `nil`, after the empty call has run the command -/
  | ran
  /-- the function that hands the template to an `exposer` -/
  | exposer (cmdt : CommandTemplate)
  /-- a new `Command` -/
  | derived (f : Command)
  deriving DecidableEq, Repr

/-! ## Slices and maps -/

/-- The elements of a slice. -/
def readSlice (h : Heap) (s : StrSlice) : List String :=
  (h.arrays.getD s.ptr []).take s.len

/-- The capacity the gc runtime picks when a small slice outgrows its
array: the needed length when that is more than double, double otherwise. -/
def goGrow (oldCap need : Nat) : Nat :=
  if 2 * oldCap < need then need else 2 * oldCap

/-- Go's `append(s, xs...)`: when the capacity suffices the elements are
written into the existing backing array past `len`; otherwise a new array
of the capacity chosen by `grow` (at least the needed length) is
allocated and the old elements are copied into it. -/
def sliceAppend (grow : Nat → Nat → Nat) (h : Heap) (s : StrSlice) (xs : List String) :
    Heap × StrSlice :=
  let need := s.len + xs.length
  if need ≤ s.cap then
    let arr := h.arrays.getD s.ptr []
    ({ h with arrays := h.arrays.set s.ptr (arr.take s.len ++ xs ++ arr.drop need) },
     { s with len := need })
  else
    let ncap := max need (grow s.cap need)
    ({ h with arrays := h.arrays ++ [readSlice h s ++ xs ++ List.replicate (ncap - need) ""] },
     ⟨h.arrays.length, need, ncap⟩)

/-- The lookup `m[k]`. -/
def mapGet : EnvMap → String → Option String
  | [], _ => none
  | (k', v) :: m, k => if k' = k then some v else mapGet m k

/-- The builtin `delete(m, k)`. -/
def mapDelete (m : EnvMap) (k : String) : EnvMap :=
  m.filter (fun e => decide (e.1 ≠ k))

/-- The assignment `m[k] = v`. -/
def mapSet (m : EnvMap) (k v : String) : EnvMap :=
  mapDelete m k ++ [(k, v)]

/-- The contents of the map object at `r`. -/
def Heap.mapAt (h : Heap) (r : Nat) : EnvMap := h.maps.getD r []

/-- The environment a template exposes: `none` for a nil map. -/
def envOf (h : Heap) (cmdt : CommandTemplate) : Option EnvMap :=
  cmdt.Env.map h.mapAt

/-- Modelled from the spec: `getOsEnv`, whose file is not among the
sources, gives "a snapshot of the ambient process environment": a fresh
map holding the ambient variables. -/
def getOsEnv (h : Heap) (ambient : EnvMap) : Heap × Option Nat :=
  ({ h with maps := h.maps ++ [ambient] }, some h.maps.length)

/-! ## Baking -/

/-- The method `(*CommandTemplate).bakeArgs`. -/
def bakeArgs (grow : Nat → Nat → Nat) (h : Heap) (cmdt : CommandTemplate) (args : List String) :
    Heap × CommandTemplate :=
  let r := sliceAppend grow h cmdt.Args args
  (r.1, { cmdt with Args := r.2 })

/-- One iteration of the loop of `bakeEnv`: `delete` is a no-op on a nil
map, an assignment to a nil map panics. -/
def bakeEnvStep (h : Heap) (env : Option Nat) (k v : String) : Except Panic Heap :=
  if v = "" then
    match env with
    | none => .ok h
    | some r => .ok { h with maps := h.maps.set r (mapDelete (h.mapAt r) k) }
  else
    match env with
    | none => .error (.runtimeError "assignment to entry in nil map")
    | some r => .ok { h with maps := h.maps.set r (mapSet (h.mapAt r) k v) }

/-- The method `(*CommandTemplate).bakeEnv`; `args` lists the entries of
the `Env` map in the order the `range` visits them.  The map object the
template refers to is updated in place. -/
def bakeEnv (h : Heap) (cmdt : CommandTemplate) : EnvMap → Heap × Except Panic CommandTemplate
  | [] => (h, .ok cmdt)
  | (k, v) :: rest =>
    match bakeEnvStep h cmdt.Env k v with
    | .error e => (h, .error e)
    | .ok h1 => bakeEnv h1 cmdt rest

/-- The method `(*CommandTemplate).clearEnv`: `make` allocates a new map. -/
def clearEnv (h : Heap) (cmdt : CommandTemplate) : Heap × CommandTemplate :=
  ({ h with maps := h.maps ++ [[]] }, { cmdt with Env := some h.maps.length })

/-- The body of the loop of `bakeOpts`. -/
def bakeOptsStep (cmdt : CommandTemplate) (arg : Opts) : CommandTemplate :=
  let c1 := if arg.Cwd ≠ "" then { cmdt with Cwd := arg.Cwd } else cmdt
  let c2 := if arg.In ≠ none then { c1 with In := arg.In } else c1
  let c3 := if arg.Out ≠ none then { c2 with Out := arg.Out } else c2
  let c4 := if arg.Err ≠ none then { c3 with Err := arg.Err } else c3
  if arg.OkExit ≠ none then { c4 with OkExit := arg.OkExit } else c4

/-- The method `(*CommandTemplate).bakeOpts`. -/
def bakeOpts (cmdt : CommandTemplate) (args : List Opts) : CommandTemplate :=
  args.foldl bakeOptsStep cmdt

/-- The method `(*CommandTemplate).bakeDebug`. -/
def bakeDebug (cmdt : CommandTemplate) (cb : Option Nat) : CommandTemplate :=
  { cmdt with debug := cb }

/-- The `for _, rarg := range args` loop of `closure` with its type
switch.  A panic leaves the heap as the earlier arguments made it. -/
def applyMods (grow : Nat → Nat → Nat) (h : Heap) (cmdt : CommandTemplate) :
    List Modifier → Heap × Except Panic CommandTemplate
  | [] => (h, .ok cmdt)
  | .str arg :: rest =>
    let r := bakeArgs grow h cmdt [arg]
    applyMods grow r.1 r.2 rest
  | .env arg :: rest =>
    match bakeEnv h cmdt arg with
    | (h1, .error e) => (h1, .error e)
    | (h1, .ok c1) => applyMods grow h1 c1 rest
  | .clearEnv :: rest =>
    let r := clearEnv h cmdt
    applyMods grow r.1 r.2 rest
  | .opts arg :: rest => applyMods grow h (bakeOpts cmdt [arg]) rest
  | .exposeFlag :: _ => (h, .error (.IncomprehensibleCommandModifier .exposeFlag))
  | .other v :: _ => (h, .error (.IncomprehensibleCommandModifier (.other v)))

/-! ## Errors -/

/-- The function `whoru`.  `val.Type()` is evaluated first and panics on
the zero Value. -/
def whoru : RValue → Except Panic String
  | .zero => .error (.runtimeError "reflect: call of reflect.Value.Type on zero Value")
  | .ptr e => (whoru e).map (fun s => "*" ++ s)
  | .iface e => whoru e
  | .plain t => .ok t.Name

/-- What `reflect.ValueOf` gives for a modifier. -/
def Modifier.reflect : Modifier → RValue
  | .str _ => .plain (.defined "string")
  | .env _ => .plain (.defined "Env")
  | .clearEnv => .plain (.defined "ClearEnv")
  | .opts _ => .plain (.defined "Opts")
  | .exposeFlag => .plain (.defined "expose_t")
  | .other v => v

/-- The method `IncomprehensibleCommandModifier.Error`. -/
def IncomprehensibleCommandModifier.Error (wat : Modifier) : Except Panic String :=
  (whoru wat.reflect).map
    (fun s => "gosh: incomprehensible command modifier: do not want type \"" ++ s ++ "\"")

/-! ## Writers -/

/-- The function `WriterFromInterface`.  A `*bytes.Buffer` is an
`io.Writer` and is returned as it is; for a `bytes.Buffer` value the
switch variable `y` is a new variable holding a copy of the struct, and
`&y` is returned: a second buffer variable whose slice header still
points at the array of the first. -/
def WriterFromInterface (h : Heap) (x : Option Endpoint) : Heap × Except Panic Writer :=
  match x with
  | some (.stream id) => (h, .ok (.stream id))
  | some (.bufPtr a) => (h, .ok (.buffer a))
  | some (.bufVal y) => ({ h with bufs := h.bufs ++ [y] }, .ok (.buffer h.bufs.length))
  | some (.chanSendString ch) => (h, .ok (.writerChanString ch))
  | some (.chanString ch) => (h, .ok (.writerChanString ch))
  | some (.chanSendBytes ch) => (h, .ok (.writerChanByteSlice ch))
  | some (.chanBytes ch) => (h, .ok (.writerChanByteSlice ch))
  | y => (h, .error (.WriterUnrefinableFromInterface y))

/-- The buffer variable at address `a`. -/
def Heap.bufAt (h : Heap) (a : Nat) : Buffer := h.bufs.getD a Buffer.zero

/-- The bytes a buffer value holds, `b.Bytes()`. -/
def Heap.bytesOf (h : Heap) (b : Buffer) : Bytes :=
  (h.bytes.getD b.buf.ptr []).take b.buf.len

/-- The contents of the buffer variable at address `a`. -/
def Heap.bufBytes (h : Heap) (a : Nat) : Bytes := h.bytesOf (h.bufAt a)

/-- The capacity `bytes.Buffer` picks when it must grow by `n`: 64 bytes
for a first small write, twice the old capacity plus `n` otherwise. -/
def goBufGrow (oldCap n : Nat) : Nat :=
  if oldCap = 0 ∧ n ≤ 64 then 64 else 2 * oldCap + n

/-- The library method `(*bytes.Buffer).Write` on the buffer variable at
`a`: when `p` fits the capacity it is copied into the existing array past
`len`; otherwise a new array of the capacity chosen by `grow` (at least
the needed length) is allocated and the old bytes are copied into it.
Returns `len(p)` and no error. -/
def bufferWrite (grow : Nat → Nat → Nat) (h : Heap) (a : Nat) (p : Bytes) :
    Heap × Nat × Option IoError :=
  let b := (h.bufAt a).buf
  let need := b.len + p.length
  if need ≤ b.cap then
    let arr := h.bytes.getD b.ptr []
    ({ h with bytes := h.bytes.set b.ptr (arr.take b.len ++ p ++ arr.drop need),
              bufs := h.bufs.set a ⟨{ b with len := need }⟩ }, p.length, none)
  else
    let ncap := max need (grow b.cap p.length)
    ({ h with bytes := h.bytes ++ [h.bufBytes a ++ p ++ List.replicate (ncap - need) 0],
              bufs := h.bufs.set a ⟨⟨h.bytes.length, need, ncap⟩⟩ }, p.length, none)

/-- The outcome of a channel send attempted now. -/
inductive Send (α : Type)
  | done (c : Chan α)
  | panicClosed
  | blocks

/-- Whether the channel takes a value now: it is open and a receiver
waits or the buffer has room. -/
def Chan.admits {α : Type} (c : Chan α) : Bool :=
  !c.closed && (decide (0 < c.waiting) || decide (c.queue.length < c.cap))

/-- The statement `ch <- v`: a send on a closed channel panics; a waiting
receiver takes the value directly; otherwise it is buffered if there is
room; otherwise the sender blocks. -/
def chanSend {α : Type} (c : Chan α) (v : α) : Send α :=
  if c.closed then .panicClosed
  else if 0 < c.waiting then
    .done { c with waiting := c.waiting - 1, delivered := c.delivered ++ c.queue ++ [v], queue := [] }
  else if c.queue.length < c.cap then .done { c with queue := c.queue ++ [v] }
  else .blocks

/-- The shared body of the two channel `Write` methods on the channel
itself: the deferred function turns a panic of the send into `(0, io.EOF)`.
`none` is a sender that blocks. -/
def chanWrite (c : Chan Bytes) (v : Bytes) (p : Bytes) : Option (Chan Bytes × Nat × Option IoError) :=
  match chanSend c v with
  | .done c1 => some (c1, p.length, none)
  | .panicClosed => some (c, 0, some .EOF)
  | .blocks => none

/-- The channel object at `ch`; a reference outside the heap is the nil
channel, on which a send blocks for ever. -/
def chanAt (l : List (Chan Bytes)) (ch : Nat) : Chan Bytes :=
  l.getD ch ⟨false, 0, [], 0, []⟩

/-- The method `(*writerChanString).Write`: sends `string(p)`. -/
def writerChanString.Write (h : Heap) (ch : Nat) (p : Bytes) :
    Option (Heap × Nat × Option IoError) :=
  (chanWrite (chanAt h.chansString ch) p p).map
    (fun r => ({ h with chansString := h.chansString.set ch r.1 }, r.2))

/-- The method `(*writerChanByteSlice).Write`: sends `p`. -/
def writerChanByteSlice.Write (h : Heap) (ch : Nat) (p : Bytes) :
    Option (Heap × Nat × Option IoError) :=
  (chanWrite (chanAt h.chansBytes ch) p p).map
    (fun r => ({ h with chansBytes := h.chansBytes.set ch r.1 }, r.2))

/-- The call `w.Write(p)` on a writer made by `WriterFromInterface`;
`none` for a blocked sender and for a stream handle, whose effect lies
outside this program. -/
def Writer.Write (grow : Nat → Nat → Nat) (h : Heap) (w : Writer) (p : Bytes) :
    Option (Heap × Nat × Option IoError) :=
  match w with
  | .stream _ => none
  | .buffer a => some (bufferWrite grow h a p)
  | .writerChanString ch => writerChanString.Write h ch p
  | .writerChanByteSlice ch => writerChanByteSlice.Write h ch p

/-! ## Commands -/

/-- The function `enclose`: the closure reads `*cmdt` at each call. -/
def enclose (cmdt : CommandTemplate) : Command := ⟨cmdt⟩

/-- The method `Command.expose`: the pointer it returns is to the
parameter variable of this very call of `closure`, a fresh copy of the
captured template. -/
def Command.expose (f : Command) : CommandTemplate := f.cmdt

/-- What a reader of the template sees: slice and map are read through
the heap. -/
def viewOf (h : Heap) (cmdt : CommandTemplate) : TemplateView :=
  ⟨cmdt.Cmd, readSlice h cmdt.Args, envOf h cmdt, cmdt.Cwd, cmdt.In, cmdt.Out, cmdt.Err,
    cmdt.OkExit⟩

/-- The name of the dynamic type of an endpoint, for interface
comparison. -/
def Endpoint.typeName : Endpoint → String
  | .stream _ => "io.Writer"
  | .bufPtr _ => "*bytes.Buffer"
  | .bufVal _ => "bytes.Buffer"
  | .chanSendString _ => "chan<- string"
  | .chanString _ => "chan string"
  | .chanSendBytes _ => "chan<- []uint8"
  | .chanBytes _ => "chan []uint8"
  | .text _ => "string"
  | .raw _ => "[]uint8"
  | .command => "gosh.Command"
  | .other n _ => n

/-- Whether values of the endpoint's dynamic type can be compared. -/
def Endpoint.isComparable : Endpoint → Bool
  | .bufVal _ => false
  | .raw _ => false
  | .command => false
  | .other _ c => c
  | _ => true

/-- The comparison `cmdt.Err == cmdt.Out` of two interface values, the
left one not nil: it panics when both hold the same uncomparable type. -/
def ifaceEq (a : Endpoint) (b : Option Endpoint) : Except Panic Bool :=
  match b with
  | none => .ok false
  | some y =>
    if a.typeName = y.typeName ∧ a.isComparable = false then
      .error (.runtimeError "comparing uncomparable type")
    else .ok (decide (a = y))

/-- The `cmdt.In` block of `Start`. -/
def resolveStdin (W : World) : Option Endpoint → Except Panic (Option Nat)
  | none => .ok none
  | some .command => .error .notYetImplemented
  | some x => (W.ReaderFromInterface x).map some

/-- The `cmdt.Out` block of `Start`. -/
def resolveStdout (h : Heap) : Option Endpoint → Heap × Except Panic (Option Writer)
  | none => (h, .ok none)
  | some x =>
    let r := WriterFromInterface h (some x)
    (r.1, r.2.map some)

/-- The `cmdt.Err` block of `Start`. -/
def resolveStderr (h : Heap) (err out : Option Endpoint) (stdout : Option Writer) :
    Heap × Except Panic (Option Writer) :=
  match err with
  | none => (h, .ok none)
  | some x =>
    match ifaceEq x out with
    | .error e => (h, .error e)
    | .ok true => (h, .ok stdout)
    | .ok false =>
      let r := WriterFromInterface h (some x)
      (r.1, r.2.map some)

/-- The method `Command.Start`.  The listener is called first, with the
template as it reads at that moment; then the `exec.Cmd` is filled in and
the process is spawned. -/
def Command.Start (W : World) (h : Heap) (f : Command) :
    Heap × List Event × Except Panic RunningCommand :=
  let cmdt := f.expose
  let ev : List Event :=
    match cmdt.debug with
    | some cb => [.debugCall cb (viewOf h cmdt)]
    | none => []
  let env := (envOf h cmdt).map (fun m => m.map (fun kv => kv.1 ++ "=" ++ kv.2))
  match resolveStdin W cmdt.In with
  | .error e => (h, ev, .error e)
  | .ok stdin =>
    match resolveStdout h cmdt.Out with
    | (h1, .error e) => (h1, ev, .error e)
    | (h1, .ok stdout) =>
      match resolveStderr h1 cmdt.Err cmdt.Out stdout with
      | (h2, .error e) => (h2, ev, .error e)
      | (h2, .ok stderr) =>
        let rcmd : ExecCmd :=
          ⟨cmdt.Cmd, cmdt.Cmd :: readSlice h cmdt.Args, env, cmdt.Cwd, stdin, stdout, stderr⟩
        match W.spawnFails rcmd with
        | some e => (h2, ev, .error e)
        | none => (h2, ev ++ [.spawn rcmd], .ok ⟨rcmd⟩)

/-- The loop `for _, okcode := range cmdt.OkExit` of `Run`: whether it
returns. -/
def okLoop (exitCode : Int) : List Int → Bool
  | [] => false
  | okcode :: rest => if exitCode = okcode then true else okLoop exitCode rest

/-- The method `Command.Run`. -/
def Command.Run (W : World) (h : Heap) (f : Command) : Heap × List Event × Except Panic Unit :=
  let cmdt := f.expose
  match f.Start W h with
  | (h1, ev, .error e) => (h1, ev, .error e)
  | (h1, ev, .ok cmd) =>
    let exitCode := W.exitCode cmd.cmd
    if okLoop exitCode (cmdt.OkExit.getD []) then (h1, ev, .ok ())
    else (h1, ev, .error (.FailureExitCode cmdt.Cmd exitCode))

/-- The function `closure`; `cmdt` is its by-value parameter. -/
def closure (W : World) (grow : Nat → Nat → Nat) (h : Heap) (cmdt : CommandTemplate)
    (args : List Modifier) : Heap × List Event × Except Panic CallResult :=
  match args with
  | [] =>
    let r := (enclose cmdt).Run W h
    (r.1, r.2.1, r.2.2.map (fun _ => CallResult.ran))
  | .exposeFlag :: _ => (h, [], .ok (.exposer cmdt))
  | a :: rest =>
    let r := applyMods grow h cmdt (a :: rest)
    (r.1, [], r.2.map (fun t => CallResult.derived (enclose t)))

/-- The call `f(args...)` of a `Command`. -/
def Command.call (W : World) (grow : Nat → Nat → Nat) (h : Heap) (f : Command)
    (args : List Modifier) : Heap × List Event × Except Panic CallResult :=
  closure W grow h f.cmdt args

/-- The function `Sh`, in a process whose environment is `ambient`. -/
def Sh (h : Heap) (ambient : EnvMap) (cmd : String) : Heap × Command :=
  let e := getOsEnv h ambient
  (e.1, enclose { CommandTemplate.zero with Cmd := cmd, Env := e.2, OkExit := some [0] })

/-- The method `Command.BakeArgs`. -/
def Command.BakeArgs (grow : Nat → Nat → Nat) (h : Heap) (f : Command) (args : List String) :
    Heap × Command :=
  let r := bakeArgs grow h f.expose args
  (r.1, enclose r.2)

/-- The method `Command.BakeEnv`. -/
def Command.BakeEnv (h : Heap) (f : Command) (args : EnvMap) : Heap × Except Panic Command :=
  let r := bakeEnv h f.expose args
  (r.1, r.2.map enclose)

/-- The method `Command.ClearEnv`. -/
def Command.ClearEnv (h : Heap) (f : Command) : Heap × Command :=
  let r := clearEnv h f.expose
  (r.1, enclose r.2)

/-- The method `Command.BakeOpts`. -/
def Command.BakeOpts (f : Command) (args : List Opts) : Command :=
  enclose (bakeOpts f.expose args)

/-- The method `Command.Debug`. -/
def Command.Debug (f : Command) (cb : Option Nat) : Command :=
  enclose (bakeDebug f.expose cb)

/-- A chain of calls `f(ms1)(ms2)...`: the command the last call returns,
`none` when some call of the chain does not return a command. -/
def callChain (W : World) (grow : Nat → Nat → Nat) (h : Heap) (f : Command) :
    List (List Modifier) → Heap × Option Command
  | [] => (h, some f)
  | ms :: rest =>
    match f.call W grow h ms with
    | (h1, _, .ok (.derived g)) => callChain W grow h1 g rest
    | (h1, _, _) => (h1, none)

/-! ## Auxiliary definitions for the statements -/

/-- The value at key `j` after a run of upserts and deletions over the
entries of an `Env`, starting from `old`: what the loop of `bakeEnv`
leaves under `j`. -/
def mergeGet (old : Option String) (j : String) : EnvMap → Option String
  | [] => old
  | (k, v) :: rest =>
    mergeGet (if k = j then (if v = "" then none else some v) else old) j rest

/-- The value a field takes from the last bundle of the list that sets
it: `isSet` tells whether a bundle sets the field, `get` reads it. -/
def lastSetting {α : Type} (isSet : Opts → Bool) (get : Opts → α) (bs : List Opts) : Option α :=
  (bs.reverse.find? isSet).map get

/-- A modifier that cannot change the accepted exit codes: a string, an
`Env`, a `ClearEnv`, or an `Opts` whose `OkExit` is not set. -/
def keepsOkExit : Modifier → Bool
  | .str _ => true
  | .env _ => true
  | .clearEnv => true
  | .opts o => o.OkExit.isNone
  | .exposeFlag => false
  | .other _ => false

/-- A world in which every stream resolves, every spawn succeeds and
every process ends with status `code`. -/
def World.exiting (code : Int) : World :=
  ⟨fun _ => .ok 0, fun _ => none, fun _ => code⟩

/-- A slice header that fits its backing array in the heap. -/
def sliceOk (h : Heap) (s : StrSlice) : Prop :=
  s.len ≤ s.cap ∧ s.cap ≤ (h.arrays.getD s.ptr []).length

/-- A modifier of one of the four kinds the type switch of `closure`
knows. -/
def isKnown : Modifier → Bool
  | .str _ => true
  | .env _ => true
  | .clearEnv => true
  | .opts _ => true
  | .exposeFlag => false
  | .other _ => false

/-! # Theorems -/

/-! ## Lemmas on maps -/

theorem mapGet_append (m n : EnvMap) (k : String) :
    mapGet (m ++ n) k = (mapGet m k).orElse (fun _ => mapGet n k) := by
  induction m with
  | nil => simp [mapGet]
  | cons e m ih =>
    obtain ⟨k', v⟩ := e
    by_cases hk : k' = k <;> simp [mapGet, hk, ih]

theorem mapGet_mapDelete_self (m : EnvMap) (k : String) : mapGet (mapDelete m k) k = none := by
  induction m with
  | nil => simp [mapDelete, mapGet]
  | cons e m ih =>
    obtain ⟨k', v⟩ := e
    by_cases hk : k' = k
    · simpa [mapDelete, List.filter_cons, hk] using ih
    · simpa [mapDelete, List.filter_cons, hk, mapGet] using ih

theorem mapGet_mapDelete_ne (m : EnvMap) (k j : String) (hj : k ≠ j) :
    mapGet (mapDelete m k) j = mapGet m j := by
  induction m with
  | nil => simp [mapDelete, mapGet]
  | cons e m ih =>
    obtain ⟨k', v⟩ := e
    by_cases hk : k' = k
    · subst hk
      simpa [mapDelete, List.filter_cons, mapGet, hj] using ih
    · by_cases hkj : k' = j
      · subst hkj
        simp [mapDelete, List.filter_cons, hk, mapGet]
      · simpa [mapDelete, List.filter_cons, hk, mapGet, hkj] using ih

theorem mapGet_mapSet_self (m : EnvMap) (k v : String) : mapGet (mapSet m k v) k = some v := by
  simp [mapSet, mapGet_append, mapGet_mapDelete_self, mapGet]

theorem mapGet_mapSet_ne (m : EnvMap) (k v j : String) (hj : k ≠ j) :
    mapGet (mapSet m k v) j = mapGet m j := by
  simp [mapSet, mapGet_append, mapGet_mapDelete_ne m k j hj, mapGet, hj]

theorem mapAt_set (h : Heap) (r : Nat) (m : EnvMap) (hr : r < h.maps.length) :
    Heap.mapAt { h with maps := h.maps.set r m } r = m := by
  simp [Heap.mapAt, List.getD_eq_getElem?_getD, hr]

theorem bakeEnv_get (cmdt : CommandTemplate) (r : Nat) (hEnv : cmdt.Env = some r) (M : EnvMap) :
    ∀ h : Heap, r < h.maps.length →
      (bakeEnv h cmdt M).2 = .ok cmdt ∧ (bakeEnv h cmdt M).1.maps.length = h.maps.length ∧
      ∀ j, mapGet ((bakeEnv h cmdt M).1.mapAt r) j = mergeGet (mapGet (h.mapAt r) j) j M := by
  induction M with
  | nil => intro h _; simp [bakeEnv, mergeGet]
  | cons e M ih =>
    obtain ⟨k, v⟩ := e
    intro h hr
    by_cases hv : v = ""
    · subst hv
      have hlen : ({ h with maps := h.maps.set r (mapDelete (h.mapAt r) k) } : Heap).maps.length
          = h.maps.length := by simp
      obtain ⟨h1, h2, h3⟩ := ih { h with maps := h.maps.set r (mapDelete (h.mapAt r) k) }
        (by simpa using hr)
      simp only [bakeEnv, bakeEnvStep, hEnv, if_true]
      refine ⟨h1, by simpa using h2, ?_⟩
      intro j
      rw [h3 j, mapAt_set h r _ hr]
      by_cases hkj : k = j
      · subst hkj; simp [mergeGet, mapGet_mapDelete_self]
      · simp [mergeGet, mapGet_mapDelete_ne _ _ _ hkj, hkj]
    · obtain ⟨h1, h2, h3⟩ := ih { h with maps := h.maps.set r (mapSet (h.mapAt r) k v) }
        (by simpa using hr)
      simp only [bakeEnv, bakeEnvStep, hEnv, hv, if_false]
      refine ⟨h1, by simpa using h2, ?_⟩
      intro j
      rw [h3 j, mapAt_set h r _ hr]
      by_cases hkj : k = j
      · subst hkj; simp [mergeGet, mapGet_mapSet_self, hv]
      · simp [mergeGet, mapGet_mapSet_ne _ _ _ _ hkj, hkj]

theorem mergeGet_not_mem (old : Option String) (j : String) (M : EnvMap)
    (hj : j ∉ M.map Prod.fst) : mergeGet old j M = old := by
  induction M generalizing old with
  | nil => rfl
  | cons e M ih =>
    obtain ⟨k, v⟩ := e
    simp only [List.map_cons, List.mem_cons, not_or] at hj
    have hk : ¬ k = j := fun hh => hj.1 hh.symm
    simp [mergeGet, hk, ih old hj.2]

theorem mergeGet_mem (old : Option String) (j v : String) (M : EnvMap)
    (hM : (M.map Prod.fst).Nodup) (hj : (j, v) ∈ M) :
    mergeGet old j M = if v = "" then none else some v := by
  induction M generalizing old with
  | nil => simp at hj
  | cons e M ih =>
    obtain ⟨k, w⟩ := e
    simp only [List.map_cons, List.nodup_cons] at hM
    rcases List.mem_cons.mp hj with heq | hmem
    · obtain ⟨rfl, rfl⟩ := Prod.mk.inj heq
      simp only [mergeGet, if_true]
      exact mergeGet_not_mem _ _ _ hM.1
    · have hk : ¬ k = j := by
        intro hh; subst hh
        exact hM.1 (List.mem_map.mpr ⟨(k, v), hmem, rfl⟩)
      simp only [mergeGet, hk, if_false]
      exact ih old hM.2 hmem

/-- C3. For every environment map (the object at `r`) and every `Env`
modifier `M`, a map and so with distinct keys: after `bakeEnv`, each key
that `M` gives a non-empty value maps to that value, each key that `M`
gives the empty string is absent, and every key not in `M` maps to what
it mapped to before. -/
theorem bakeEnv_merges (h : Heap) (cmdt : CommandTemplate) (r : Nat) (M : EnvMap)
    (hEnv : cmdt.Env = some r) (hr : r < h.maps.length) (hM : (M.map Prod.fst).Nodup) :
    (bakeEnv h cmdt M).2 = .ok cmdt ∧
    (∀ k v, (k, v) ∈ M → v ≠ "" → mapGet ((bakeEnv h cmdt M).1.mapAt r) k = some v) ∧
    (∀ k, (k, "") ∈ M → mapGet ((bakeEnv h cmdt M).1.mapAt r) k = none) ∧
    (∀ k, k ∉ M.map Prod.fst →
      mapGet ((bakeEnv h cmdt M).1.mapAt r) k = mapGet (h.mapAt r) k) := by
  obtain ⟨h1, _, h3⟩ := bakeEnv_get cmdt r hEnv M h hr
  refine ⟨h1, ?_, ?_, ?_⟩
  · intro k v hk hv
    rw [h3 k, mergeGet_mem _ k v M hM hk]; simp [hv]
  · intro k hk
    rw [h3 k, mergeGet_mem _ k "" M hM hk]; simp
  · intro k hk
    rw [h3 k, mergeGet_not_mem _ k M hk]

/-- C3, at the environment `X=1, Y=2` and the modifier
`Env{"X": "", "Z": "3"}`: `X` is removed, `Z` is added, `Y` stays. -/
theorem bakeEnv_merges_witness :
    (({ CommandTemplate.zero with Env := some 0 } : CommandTemplate).Env = some 0 ∧
      0 < (⟨[], [[("X", "1"), ("Y", "2")]], [], [], [], []⟩ : Heap).maps.length ∧
      (([("X", ""), ("Z", "3")] : EnvMap).map Prod.fst).Nodup) ∧
    mapGet ((bakeEnv ⟨[], [[("X", "1"), ("Y", "2")]], [], [], [], []⟩
        { CommandTemplate.zero with Env := some 0 } [("X", ""), ("Z", "3")]).1.mapAt 0) "X"
      = none ∧
    mapGet ((bakeEnv ⟨[], [[("X", "1"), ("Y", "2")]], [], [], [], []⟩
        { CommandTemplate.zero with Env := some 0 } [("X", ""), ("Z", "3")]).1.mapAt 0) "Z"
      = some "3" ∧
    mapGet ((bakeEnv ⟨[], [[("X", "1"), ("Y", "2")]], [], [], [], []⟩
        { CommandTemplate.zero with Env := some 0 } [("X", ""), ("Z", "3")]).1.mapAt 0) "Y"
      = mapGet (Heap.mapAt ⟨[], [[("X", "1"), ("Y", "2")]], [], [], [], []⟩ 0) "Y" :=
  ⟨⟨rfl, by decide, by decide⟩,
   (bakeEnv_merges ⟨[], [[("X", "1"), ("Y", "2")]], [], [], [], []⟩
      { CommandTemplate.zero with Env := some 0 } 0 [("X", ""), ("Z", "3")]
      rfl (by decide) (by decide)).2.2.1 "X" (by decide),
   (bakeEnv_merges ⟨[], [[("X", "1"), ("Y", "2")]], [], [], [], []⟩
      { CommandTemplate.zero with Env := some 0 } 0 [("X", ""), ("Z", "3")]
      rfl (by decide) (by decide)).2.1 "Z" "3" (by decide) (by decide),
   (bakeEnv_merges ⟨[], [[("X", "1"), ("Y", "2")]], [], [], [], []⟩
      { CommandTemplate.zero with Env := some 0 } 0 [("X", ""), ("Z", "3")]
      rfl (by decide) (by decide)).2.2.2 "Y" (by decide)⟩

/-! ## Options bundles -/

theorem bakeOpts_snoc (T : CommandTemplate) (bs : List Opts) (b : Opts) :
    bakeOpts T (bs ++ [b]) = bakeOptsStep (bakeOpts T bs) b := by
  simp [bakeOpts, List.foldl_append]

theorem bakeOptsStep_fields (T : CommandTemplate) (b : Opts) :
    (bakeOptsStep T b).Cwd = (if b.Cwd ≠ "" then b.Cwd else T.Cwd) ∧
    (bakeOptsStep T b).In = (if b.In ≠ none then b.In else T.In) ∧
    (bakeOptsStep T b).Out = (if b.Out ≠ none then b.Out else T.Out) ∧
    (bakeOptsStep T b).Err = (if b.Err ≠ none then b.Err else T.Err) ∧
    (bakeOptsStep T b).OkExit = (if b.OkExit ≠ none then b.OkExit else T.OkExit) ∧
    (bakeOptsStep T b).Cmd = T.Cmd ∧ (bakeOptsStep T b).Args = T.Args ∧
    (bakeOptsStep T b).Env = T.Env ∧ (bakeOptsStep T b).debug = T.debug := by
  unfold bakeOptsStep
  by_cases h1 : b.Cwd = "" <;> by_cases h2 : b.In = none <;> by_cases h3 : b.Out = none <;>
    by_cases h4 : b.Err = none <;> by_cases h5 : b.OkExit = none <;>
    simp [h1, h2, h3, h4, h5]

theorem applyMods_opts (grow : Nat → Nat → Nat) (h : Heap) (bs : List Opts) :
    ∀ T : CommandTemplate,
      applyMods grow h T (bs.map Modifier.opts) = (h, .ok (bakeOpts T bs)) := by
  induction bs with
  | nil => intro T; simp [applyMods, bakeOpts]
  | cons b bs ih =>
    intro T
    simp only [List.map_cons, applyMods, ih]
    simp [bakeOpts]

theorem bakeOpts_field_last {α : Type} (get : CommandTemplate → α) (isSet : Opts → Bool)
    (og : Opts → α)
    (hstep : ∀ T b, get (bakeOptsStep T b) = if isSet b = true then og b else get T)
    (T : CommandTemplate) (bs : List Opts) :
    get (bakeOpts T bs) = (lastSetting isSet og bs).getD (get T) := by
  induction bs using List.reverseRecOn with
  | nil => simp [bakeOpts, lastSetting]
  | append_singleton bs b ih =>
    rw [bakeOpts_snoc, hstep, ih]
    cases hb : isSet b <;> simp [lastSetting, List.find?_cons, hb]

/-- C4. For every template `T` and every list `bs` of `Opts` bundles,
`bakeOpts` (and so `BakeOpts`, and a call of the command with the bundles
as its arguments) leaves in each of `Cwd`, `In`, `Out`, `Err`, `OkExit`
the value of the last bundle of the list that sets the field, or the
value of `T` when none does; `Cmd`, `Args` and `Env` are those of `T`. -/
theorem bakeOpts_last_bundle_wins (W : World) (grow : Nat → Nat → Nat) (h : Heap)
    (T : CommandTemplate) (bs : List Opts) :
    (bakeOpts T bs).Cwd = (lastSetting (fun b => decide (b.Cwd ≠ "")) Opts.Cwd bs).getD T.Cwd ∧
    (bakeOpts T bs).In = (lastSetting (fun b => b.In.isSome) Opts.In bs).getD T.In ∧
    (bakeOpts T bs).Out = (lastSetting (fun b => b.Out.isSome) Opts.Out bs).getD T.Out ∧
    (bakeOpts T bs).Err = (lastSetting (fun b => b.Err.isSome) Opts.Err bs).getD T.Err ∧
    (bakeOpts T bs).OkExit =
      (lastSetting (fun b => b.OkExit.isSome) Opts.OkExit bs).getD T.OkExit ∧
    (bakeOpts T bs).Cmd = T.Cmd ∧ (bakeOpts T bs).Args = T.Args ∧
    (bakeOpts T bs).Env = T.Env ∧
    ((enclose T).BakeOpts bs).expose = bakeOpts T bs ∧
    (bs ≠ [] → (enclose T).call W grow h (bs.map Modifier.opts)
      = (h, [], .ok (.derived (enclose (bakeOpts T bs))))) := by
  refine ⟨?_, ?_, ?_, ?_, ?_, ?_, ?_, ?_, rfl, ?_⟩
  · refine bakeOpts_field_last CommandTemplate.Cwd _ Opts.Cwd (fun T b => ?_) T bs
    rw [(bakeOptsStep_fields T b).1]; simp
  · refine bakeOpts_field_last CommandTemplate.In _ Opts.In (fun T b => ?_) T bs
    rw [(bakeOptsStep_fields T b).2.1]; cases b.In <;> simp
  · refine bakeOpts_field_last CommandTemplate.Out _ Opts.Out (fun T b => ?_) T bs
    rw [(bakeOptsStep_fields T b).2.2.1]; cases b.Out <;> simp
  · refine bakeOpts_field_last CommandTemplate.Err _ Opts.Err (fun T b => ?_) T bs
    rw [(bakeOptsStep_fields T b).2.2.2.1]; cases b.Err <;> simp
  · refine bakeOpts_field_last CommandTemplate.OkExit _ Opts.OkExit (fun T b => ?_) T bs
    rw [(bakeOptsStep_fields T b).2.2.2.2.1]; cases b.OkExit <;> simp
  · induction bs using List.reverseRecOn with
    | nil => rfl
    | append_singleton bs b ih => rw [bakeOpts_snoc, (bakeOptsStep_fields _ b).2.2.2.2.2.1, ih]
  · induction bs using List.reverseRecOn with
    | nil => rfl
    | append_singleton bs b ih =>
      rw [bakeOpts_snoc, (bakeOptsStep_fields _ b).2.2.2.2.2.2.1, ih]
  · induction bs using List.reverseRecOn with
    | nil => rfl
    | append_singleton bs b ih =>
      rw [bakeOpts_snoc, (bakeOptsStep_fields _ b).2.2.2.2.2.2.2.1, ih]
  · intro hne
    cases bs with
    | nil => exact absurd rfl hne
    | cons b bs =>
      have := applyMods_opts grow h (b :: bs) T
      simp only [List.map_cons] at this
      simp [Command.call, closure, enclose, this, Except.map]

/-- C4, at a template with working directory `/a` and two bundles, the
first setting the directory and the output, the second the accepted
codes. -/
theorem bakeOpts_last_bundle_wins_witness :
    ([⟨"/tmp", none, some (.bufPtr 0), none, none⟩, ⟨"", none, none, none, some [14]⟩]
        : List Opts) ≠ [] ∧
    (enclose { CommandTemplate.zero with Cwd := "/a" }).call (World.exiting 0) goGrow Heap.empty
      [.opts ⟨"/tmp", none, some (.bufPtr 0), none, none⟩, .opts ⟨"", none, none, none, some [14]⟩]
      = (Heap.empty, [], .ok (.derived (enclose
          { CommandTemplate.zero with
            Cwd := "/tmp", Out := some (.bufPtr 0), OkExit := some [14] }))) :=
  ⟨by decide,
   (bakeOpts_last_bundle_wins (World.exiting 0) goGrow Heap.empty
      { CommandTemplate.zero with Cwd := "/a" }
      [⟨"/tmp", none, some (.bufPtr 0), none, none⟩, ⟨"", none, none, none, some [14]⟩]
      ).2.2.2.2.2.2.2.2.2 (by decide)⟩

/-! ## Running -/

theorem okLoop_iff (c : Int) (S : List Int) : okLoop c S = true ↔ c ∈ S := by
  induction S with
  | nil => simp [okLoop]
  | cons s S ih =>
    by_cases hc : c = s
    · simp [okLoop, hc]
    · simp [okLoop, hc, ih]

theorem Run_of_Start_ok (W : World) (h h1 : Heap) (f : Command) (ev : List Event)
    (rc : RunningCommand) (hs : f.Start W h = (h1, ev, .ok rc)) :
    f.Run W h =
      if okLoop (W.exitCode rc.cmd) (f.expose.OkExit.getD []) then (h1, ev, .ok ())
      else (h1, ev, .error (.FailureExitCode f.expose.Cmd (W.exitCode rc.cmd))) := by
  simp [Command.Run, hs]

/-- C5. For every command whose template accepts the exit codes `S`, and
every exit code `c` of the process it started, `Run` returns normally if
and only if `c` is in `S`, and otherwise panics with `FailureExitCode`
carrying the template's program name and `c`. -/
theorem Run_succeeds_iff_accepted (W : World) (h h1 : Heap) (f : Command) (ev : List Event)
    (rc : RunningCommand) (S : List Int) (c : Int)
    (hs : f.Start W h = (h1, ev, .ok rc)) (hS : f.expose.OkExit.getD [] = S)
    (hc : W.exitCode rc.cmd = c) :
    ((f.Run W h).2.2 = .ok () ↔ c ∈ S) ∧
    (c ∉ S → (f.Run W h).2.2 = .error (.FailureExitCode f.expose.Cmd c)) := by
  rw [Run_of_Start_ok W h h1 f ev rc hs, hS, hc]
  by_cases hm : c ∈ S
  · simp [(okLoop_iff c S).mpr hm, hm]
  · have : okLoop c S = false := by
      cases hk : okLoop c S
      · rfl
      · exact absurd ((okLoop_iff c S).mp hk) hm
    simp [this, hm]

/-- C5, at the accepted set `{14}`: a process that exits 14 is a success,
one that exits 0 is a failure naming the program and the code. -/
theorem Run_succeeds_iff_accepted_witness :
    (((enclose { CommandTemplate.zero with Cmd := "bash", OkExit := some [14] }).Run
        (World.exiting 14) Heap.empty).2.2 = .ok () ↔ (14 : Int) ∈ [14]) ∧
    (((0 : Int) ∉ [14]) ∧
      ((enclose { CommandTemplate.zero with Cmd := "bash", OkExit := some [14] }).Run
        (World.exiting 0) Heap.empty).2.2 = .error (.FailureExitCode "bash" 0)) :=
  ⟨(Run_succeeds_iff_accepted (World.exiting 14) Heap.empty Heap.empty
      (enclose { CommandTemplate.zero with Cmd := "bash", OkExit := some [14] })
      [.spawn ⟨"bash", ["bash"], none, "", none, none, none⟩]
      ⟨⟨"bash", ["bash"], none, "", none, none, none⟩⟩ [14] 14 rfl rfl rfl).1,
   by decide,
   (Run_succeeds_iff_accepted (World.exiting 0) Heap.empty Heap.empty
      (enclose { CommandTemplate.zero with Cmd := "bash", OkExit := some [14] })
      [.spawn ⟨"bash", ["bash"], none, "", none, none, none⟩]
      ⟨⟨"bash", ["bash"], none, "", none, none, none⟩⟩ [14] 0 rfl rfl rfl).2 (by decide)⟩

/-! ## Derivations that keep the accepted exit codes -/

theorem bakeEnv_ok (cmdt : CommandTemplate) (r : Nat) (hEnv : cmdt.Env = some r) (M : EnvMap) :
    ∀ h : Heap, (bakeEnv h cmdt M).2 = .ok cmdt := by
  induction M with
  | nil => intro h; rfl
  | cons e M ih =>
    obtain ⟨k, v⟩ := e
    intro h
    by_cases hv : v = ""
    · simp only [bakeEnv, bakeEnvStep, hEnv, hv, if_true]; exact ih _
    · simp only [bakeEnv, bakeEnvStep, hEnv, hv, if_false]; exact ih _

theorem applyMods_keeps (grow : Nat → Nat → Nat) (ms : List Modifier)
    (hms : ∀ m ∈ ms, keepsOkExit m = true) :
    ∀ (h : Heap) (T : CommandTemplate), T.Env.isSome = true →
      ∃ h1 T1, applyMods grow h T ms = (h1, .ok T1) ∧ T1.Cmd = T.Cmd ∧
        T1.OkExit = T.OkExit ∧ T1.Env.isSome = true := by
  induction ms with
  | nil => intro h T hE; exact ⟨h, T, rfl, rfl, rfl, hE⟩
  | cons m ms ih =>
    intro h T hE
    have hrest : ∀ m1 ∈ ms, keepsOkExit m1 = true :=
      fun m1 hm1 => hms m1 (List.mem_cons_of_mem _ hm1)
    have hm := hms m (List.mem_cons_self _ _)
    cases m with
    | str s =>
      obtain ⟨h1, T1, e, c1, c2, c3⟩ := ih hrest (bakeArgs grow h T [s]).1
        (bakeArgs grow h T [s]).2 (by simpa [bakeArgs] using hE)
      exact ⟨h1, T1, by simpa [applyMods] using e, by simpa [bakeArgs] using c1,
        by simpa [bakeArgs] using c2, c3⟩
    | env M =>
      obtain ⟨r, hr⟩ := Option.isSome_iff_exists.mp hE
      have hok := bakeEnv_ok T r hr M h
      obtain ⟨h1, T1, e, c1, c2, c3⟩ := ih hrest (bakeEnv h T M).1 T hE
      refine ⟨h1, T1, ?_, c1, c2, c3⟩
      have hpair : bakeEnv h T M = ((bakeEnv h T M).1, .ok T) := by
        rw [← hok]
      simp only [applyMods]
      rw [hpair]
      exact e
    | clearEnv =>
      obtain ⟨h1, T1, e, c1, c2, c3⟩ := ih hrest (clearEnv h T).1 (clearEnv h T).2
        (by simp [clearEnv])
      exact ⟨h1, T1, by simpa [applyMods] using e, by simpa [clearEnv] using c1,
        by simpa [clearEnv] using c2, c3⟩
    | opts o =>
      have ho : o.OkExit = none := by simpa [keepsOkExit] using hm
      have hf := bakeOptsStep_fields T o
      obtain ⟨h1, T1, e, c1, c2, c3⟩ := ih hrest h (bakeOpts T [o])
        (by simpa [bakeOpts, hf.2.2.2.2.2.2.2.1] using hE)
      refine ⟨h1, T1, by simpa [applyMods] using e, ?_, ?_, c3⟩
      · rw [c1]; simp [bakeOpts, hf.2.2.2.2.2.1]
      · rw [c2]; simp [bakeOpts, hf.2.2.2.2.1, ho]
    | exposeFlag => simp [keepsOkExit] at hm
    | other v => simp [keepsOkExit] at hm

theorem callChain_keeps (W : World) (grow : Nat → Nat → Nat) (calls : List (List Modifier))
    (hne : ∀ ms ∈ calls, ms ≠ [])
    (hms : ∀ ms ∈ calls, ∀ m ∈ ms, keepsOkExit m = true) :
    ∀ (h : Heap) (f : Command), f.cmdt.Env.isSome = true →
      ∃ h1 D, callChain W grow h f calls = (h1, some D) ∧ D.cmdt.Cmd = f.cmdt.Cmd ∧
        D.cmdt.OkExit = f.cmdt.OkExit := by
  induction calls with
  | nil => intro h f _; exact ⟨h, f, rfl, rfl, rfl⟩
  | cons ms calls ih =>
    intro h f hE
    have hne1 := hne ms (List.mem_cons_self _ _)
    have hms1 := hms ms (List.mem_cons_self _ _)
    obtain ⟨h1, T1, e, c1, c2, c3⟩ := applyMods_keeps grow ms hms1 h f.cmdt hE
    have hcall : f.call W grow h ms = (h1, [], .ok (.derived (enclose T1))) := by
      cases ms with
      | nil => exact absurd rfl hne1
      | cons m ms =>
        have hm := hms1 m (List.mem_cons_self _ _)
        cases m <;> first
          | (simp [keepsOkExit] at hm; done)
          | simp [Command.call, closure, e, Except.map]
    obtain ⟨h2, D, e2, d1, d2⟩ := ih (fun ms1 hm1 => hne ms1 (List.mem_cons_of_mem _ hm1))
      (fun ms1 hm1 => hms ms1 (List.mem_cons_of_mem _ hm1)) h1 (enclose T1) c3
    refine ⟨h2, D, ?_, ?_, ?_⟩
    · simp only [callChain, hcall]; exact e2
    · rw [d1]; exact c1
    · rw [d2]; exact c2

/-- C6. For every program name `p`, `Sh(p)` has program `p`, no
arguments and accepted exit codes `[0]`; every chain of non-empty calls
whose modifiers are strings, `Env`s, `ClearEnv`s or `Opts` that leave
`OkExit` unset returns a command with the same program and the same
accepted codes, and `Run` on that command, once its process has started,
returns normally if the exit code is 0 and panics with `FailureExitCode`
carrying `p` and the code if it is not. -/
theorem Sh_accepts_only_zero (W : World) (grow : Nat → Nat → Nat) (h : Heap) (ambient : EnvMap)
    (p : String) (calls : List (List Modifier))
    (hne : ∀ ms ∈ calls, ms ≠ [])
    (hms : ∀ ms ∈ calls, ∀ m ∈ ms, keepsOkExit m = true) :
    (Sh h ambient p).2.expose.Cmd = p ∧
    readSlice (Sh h ambient p).1 (Sh h ambient p).2.expose.Args = [] ∧
    (Sh h ambient p).2.expose.OkExit = some [0] ∧
    ∃ h1 D, callChain W grow (Sh h ambient p).1 (Sh h ambient p).2 calls = (h1, some D) ∧
      D.expose.Cmd = p ∧ D.expose.OkExit = some [0] ∧
      ∀ h2 ev rc, D.Start W h1 = (h2, ev, .ok rc) →
        (W.exitCode rc.cmd = 0 → (D.Run W h1).2.2 = .ok ()) ∧
        (W.exitCode rc.cmd ≠ 0 →
          (D.Run W h1).2.2 = .error (.FailureExitCode p (W.exitCode rc.cmd))) := by
  refine ⟨rfl, ?_, rfl, ?_⟩
  · simp [Sh, enclose, Command.expose, CommandTemplate.zero, readSlice, StrSlice.nil]
  · obtain ⟨h1, D, e, d1, d2⟩ := callChain_keeps W grow calls hne hms (Sh h ambient p).1
      (Sh h ambient p).2 (by simp [Sh, enclose, getOsEnv])
    have hCmd : D.expose.Cmd = p := d1
    have hOk : D.expose.OkExit = some [0] := d2
    refine ⟨h1, D, e, hCmd, hOk, ?_⟩
    intro h2 ev rc hs
    have hrun := Run_of_Start_ok W h1 h2 D ev rc hs
    rw [hrun, hOk, hCmd]
    constructor
    · intro hz; simp [hz, okLoop]
    · intro hz; simp [hz, okLoop]

/-- C6, at `Sh("bash")("-c")("exit 14")` followed by a call with an
`Env` and an `Opts` that sets only the directory. -/
theorem Sh_accepts_only_zero_witness :
    (∀ ms ∈ ([[.str "-c"], [.str "exit 14"],
        [.env [("A", "1")], .opts ⟨"/", none, none, none, none⟩]] : List (List Modifier)),
      ms ≠ []) ∧
    (∀ ms ∈ ([[.str "-c"], [.str "exit 14"],
        [.env [("A", "1")], .opts ⟨"/", none, none, none, none⟩]] : List (List Modifier)),
      ∀ m ∈ ms, keepsOkExit m = true) ∧
    ∃ h1 D, callChain (World.exiting 3) goGrow (Sh Heap.empty [] "bash").1
        (Sh Heap.empty [] "bash").2
        [[.str "-c"], [.str "exit 14"], [.env [("A", "1")], .opts ⟨"/", none, none, none, none⟩]]
        = (h1, some D) ∧
      D.expose.Cmd = "bash" ∧ D.expose.OkExit = some [0] ∧
      ∀ h2 ev rc, D.Start (World.exiting 3) h1 = (h2, ev, .ok rc) →
        ((World.exiting 3).exitCode rc.cmd = 0 → (D.Run (World.exiting 3) h1).2.2 = .ok ()) ∧
        ((World.exiting 3).exitCode rc.cmd ≠ 0 →
          (D.Run (World.exiting 3) h1).2.2
            = .error (.FailureExitCode "bash" ((World.exiting 3).exitCode rc.cmd))) :=
  ⟨by decide, by decide,
   (Sh_accepts_only_zero (World.exiting 3) goGrow Heap.empty [] "bash"
      [[.str "-c"], [.str "exit 14"], [.env [("A", "1")], .opts ⟨"/", none, none, none, none⟩]]
      (by decide) (by decide)).2.2.2⟩

/-! ## Channel writers -/

theorem set_getD_self {α : Type} (l : List α) (i : Nat) (d : α) : l.set i (l.getD i d) = l := by
  induction l generalizing i with
  | nil => rfl
  | cons a l ih =>
    cases i with
    | zero => rfl
    | succ i => simpa using ih i

theorem getD_set_self {α : Type} (l : List α) (i : Nat) (d a : α) (hi : i < l.length) :
    (l.set i a).getD i d = a := by
  simp [List.getD_eq_getElem?_getD, hi]

theorem chanAt_admits_valid (l : List (Chan Bytes)) (ch : Nat)
    (ha : (chanAt l ch).admits = true) : ch < l.length := by
  by_contra hlt
  have : chanAt l ch = ⟨false, 0, [], 0, []⟩ := by
    simp [chanAt, List.getD_eq_getElem?_getD, List.getElem?_eq_none (Nat.le_of_not_lt hlt)]
  rw [this] at ha
  simp [Chan.admits] at ha

theorem chanWrite_open (c : Chan Bytes) (p : Bytes) (ha : c.admits = true) :
    ∃ c1, chanWrite c p p = some (c1, p.length, none) ∧ c1.sent = c.sent ++ [p] ∧
      c1.closed = false := by
  have hopen : c.closed = false := by
    cases hc : c.closed
    · rfl
    · simp [Chan.admits, hc] at ha
  by_cases hw : 0 < c.waiting
  · exact ⟨{ c with waiting := c.waiting - 1, delivered := c.delivered ++ c.queue ++ [p],
                     queue := [] },
      by simp [chanWrite, chanSend, hopen, hw], by simp [Chan.sent], hopen⟩
  · have hq : c.queue.length < c.cap := by
      simpa [Chan.admits, hopen, hw] using ha
    exact ⟨{ c with queue := c.queue ++ [p] },
      by simp [chanWrite, chanSend, hopen, hw, hq], by simp [Chan.sent], hopen⟩

theorem chanWrite_closed (c : Chan Bytes) (p : Bytes) (hc : c.closed = true) :
    chanWrite c p p = some (c, 0, some .EOF) := by
  simp [chanWrite, chanSend, hc]

/-- C9. For every byte chunk `p`, `Write(p)` on the text-channel adapter
and on the byte-chunk-channel adapter: when the channel is open and takes
the send, returns `(len(p), nil)` and the values sent on the channel are
those sent before followed by the one value `p`; when the channel is
closed, returns `(0, io.EOF)` and leaves every channel as it was. -/
theorem channel_Write (h : Heap) (ch : Nat) (p : Bytes) :
    ((chanAt h.chansString ch).admits = true →
      ∃ h1, writerChanString.Write h ch p = some (h1, p.length, none) ∧
        (chanAt h1.chansString ch).sent = (chanAt h.chansString ch).sent ++ [p]) ∧
    ((chanAt h.chansString ch).closed = true →
      writerChanString.Write h ch p = some (h, 0, some .EOF)) ∧
    ((chanAt h.chansBytes ch).admits = true →
      ∃ h1, writerChanByteSlice.Write h ch p = some (h1, p.length, none) ∧
        (chanAt h1.chansBytes ch).sent = (chanAt h.chansBytes ch).sent ++ [p]) ∧
    ((chanAt h.chansBytes ch).closed = true →
      writerChanByteSlice.Write h ch p = some (h, 0, some .EOF)) := by
  refine ⟨?_, ?_, ?_, ?_⟩
  · intro ha
    obtain ⟨c1, e, hsent, _⟩ := chanWrite_open _ p ha
    refine ⟨{ h with chansString := h.chansString.set ch c1 },
      by simp [writerChanString.Write, e], ?_⟩
    simp only [chanAt] at hsent ⊢
    rw [getD_set_self _ _ _ _ (chanAt_admits_valid _ _ ha)]
    exact hsent
  · intro hc
    simp only [writerChanString.Write]
    rw [chanWrite_closed _ p hc]
    simp only [Option.map_some', chanAt, set_getD_self]
  · intro ha
    obtain ⟨c1, e, hsent, _⟩ := chanWrite_open _ p ha
    refine ⟨{ h with chansBytes := h.chansBytes.set ch c1 },
      by simp [writerChanByteSlice.Write, e], ?_⟩
    simp only [chanAt] at hsent ⊢
    rw [getD_set_self _ _ _ _ (chanAt_admits_valid _ _ ha)]
    exact hsent
  · intro hc
    simp only [writerChanByteSlice.Write]
    rw [chanWrite_closed _ p hc]
    simp only [Option.map_some', chanAt, set_getD_self]

/-- C9, on a heap with one open text channel of capacity 1 and one
closed text channel, writing the bytes of `"wat\n"`. -/
theorem channel_Write_witness :
    ((chanAt (({ Heap.empty with
        chansString := [⟨false, 1, [], 0, []⟩, ⟨true, 1, [], 0, []⟩] } : Heap)).chansString
        0).admits = true ∧
      ∃ h1, writerChanString.Write
          { Heap.empty with chansString := [⟨false, 1, [], 0, []⟩, ⟨true, 1, [], 0, []⟩] }
          0 [119, 97, 116, 10] = some (h1, 4, none) ∧
        (chanAt h1.chansString 0).sent = [] ++ [[119, 97, 116, 10]]) ∧
    ((chanAt (({ Heap.empty with
        chansString := [⟨false, 1, [], 0, []⟩, ⟨true, 1, [], 0, []⟩] } : Heap)).chansString
        1).closed = true ∧
      writerChanString.Write
          { Heap.empty with chansString := [⟨false, 1, [], 0, []⟩, ⟨true, 1, [], 0, []⟩] }
          1 [119, 97, 116, 10]
        = some ({ Heap.empty with
            chansString := [⟨false, 1, [], 0, []⟩, ⟨true, 1, [], 0, []⟩] }, 0, some .EOF)) :=
  ⟨⟨by decide,
    (channel_Write
      { Heap.empty with chansString := [⟨false, 1, [], 0, []⟩, ⟨true, 1, [], 0, []⟩] }
      0 [119, 97, 116, 10]).1 (by decide)⟩,
   ⟨by decide,
    (channel_Write
      { Heap.empty with chansString := [⟨false, 1, [], 0, []⟩, ⟨true, 1, [], 0, []⟩] }
      1 [119, 97, 116, 10]).2.1 (by decide)⟩⟩

/-! ## Buffers as output endpoints -/

/-- C8, at a buffer given by value.  The caller's `var out bytes.Buffer`
is the buffer variable at address 0; `Opts{Out: out}` puts a copy of the
struct in the interface; `WriterFromInterface` returns a writer on a
second buffer variable, at address 1, and after writing `"wat\n"` through
it that variable holds `"wat\n"` while the caller's buffer is still
empty.  Likewise for a caller's buffer that holds `"a"`: after writing
`"b"` the caller reads `"a"`, not `"ab"`. -/
theorem buffer_by_value_not_written :
    (WriterFromInterface ⟨[], [], [Buffer.zero], [], [], []⟩
        (some (.bufVal (Heap.bufAt ⟨[], [], [Buffer.zero], [], [], []⟩ 0)))).2
      = .ok (.buffer 1) ∧
    (Writer.Write goBufGrow
        (WriterFromInterface ⟨[], [], [Buffer.zero], [], [], []⟩
          (some (.bufVal (Heap.bufAt ⟨[], [], [Buffer.zero], [], [], []⟩ 0)))).1
        (.buffer 1) [119, 97, 116, 10]).map (fun r => (r.1.bufBytes 0, r.1.bufBytes 1))
      = some ([], [119, 97, 116, 10]) ∧
    ¬ ((Writer.Write goBufGrow
        (WriterFromInterface ⟨[], [], [Buffer.zero], [], [], []⟩
          (some (.bufVal (Heap.bufAt ⟨[], [], [Buffer.zero], [], [], []⟩ 0)))).1
        (.buffer 1) [119, 97, 116, 10]).map (fun r => r.1.bufBytes 0)
      = some (Heap.bufBytes ⟨[], [], [Buffer.zero], [], [], []⟩ 0 ++ [119, 97, 116, 10])) ∧
    Heap.bufBytes ⟨[], [], [⟨⟨0, 1, 4⟩⟩], [], [], [[97, 0, 0, 0]]⟩ 0 = [97] ∧
    (Writer.Write goBufGrow
        (WriterFromInterface ⟨[], [], [⟨⟨0, 1, 4⟩⟩], [], [], [[97, 0, 0, 0]]⟩
          (some (.bufVal (Heap.bufAt ⟨[], [], [⟨⟨0, 1, 4⟩⟩], [], [], [[97, 0, 0, 0]]⟩ 0)))).1
        (.buffer 1) [98]).map (fun r => (r.1.bufBytes 0, r.1.bufBytes 1))
      = some ([97], [97, 98]) :=
  ⟨rfl, rfl, by decide, rfl, rfl⟩

/-- The copy made for a buffer given by value still shares the caller's
array: with the caller's buffer holding `"a"` in an array of capacity 4,
the writer's `"b"` and then the caller's own `"c"` land in the same slot,
and both buffers read `"ac"`. -/
theorem buffer_copy_shares_array :
    ((bufferWrite goBufGrow
        (bufferWrite goBufGrow
          (WriterFromInterface ⟨[], [], [⟨⟨0, 1, 4⟩⟩], [], [], [[97, 0, 0, 0]]⟩
            (some (.bufVal ⟨⟨0, 1, 4⟩⟩))).1 1 [98]).1 0 [99]).1.bufBytes 0,
     (bufferWrite goBufGrow
        (bufferWrite goBufGrow
          (WriterFromInterface ⟨[], [], [⟨⟨0, 1, 4⟩⟩], [], [], [[97, 0, 0, 0]]⟩
            (some (.bufVal ⟨⟨0, 1, 4⟩⟩))).1 1 [98]).1 0 [99]).1.bufBytes 1)
      = ([97, 99], [97, 99]) :=
  rfl

theorem getD_bytes_nil_of_le (l : List Bytes) (i : Nat) (hi : l.length ≤ i) :
    l.getD i [] = [] := by
  simp [List.getD_eq_getElem?_getD, List.getElem?_eq_none hi]

theorem bufferWrite_fit (grow : Nat → Nat → Nat) (h : Heap) (a : Nat) (p : Bytes)
    (hf : (h.bufAt a).buf.len + p.length ≤ (h.bufAt a).buf.cap) :
    bufferWrite grow h a p =
      ({ h with
          bytes := h.bytes.set (h.bufAt a).buf.ptr
            ((h.bytes.getD (h.bufAt a).buf.ptr []).take (h.bufAt a).buf.len ++ p ++
              (h.bytes.getD (h.bufAt a).buf.ptr []).drop ((h.bufAt a).buf.len + p.length)),
          bufs := h.bufs.set a
            ⟨⟨(h.bufAt a).buf.ptr, (h.bufAt a).buf.len + p.length, (h.bufAt a).buf.cap⟩⟩ },
       p.length, none) := by
  simp only [bufferWrite, hf, if_true]

theorem bufferWrite_grow (grow : Nat → Nat → Nat) (h : Heap) (a : Nat) (p : Bytes)
    (hf : ¬ (h.bufAt a).buf.len + p.length ≤ (h.bufAt a).buf.cap) :
    bufferWrite grow h a p =
      ({ h with
          bytes := h.bytes ++ [h.bufBytes a ++ p ++
            List.replicate (max ((h.bufAt a).buf.len + p.length)
              (grow (h.bufAt a).buf.cap p.length) - ((h.bufAt a).buf.len + p.length)) 0],
          bufs := h.bufs.set a
            ⟨⟨h.bytes.length, (h.bufAt a).buf.len + p.length,
              max ((h.bufAt a).buf.len + p.length) (grow (h.bufAt a).buf.cap p.length)⟩⟩ },
       p.length, none) := by
  simp only [bufferWrite, hf, if_false]

theorem bufBytes_of_set (bufs : List Buffer) (bytes : List Bytes) (h : Heap) (a : Nat)
    (B : Buffer) (ha : a < bufs.length) :
    Heap.bufBytes { h with bytes := bytes, bufs := bufs.set a B } a
      = (bytes.getD B.buf.ptr []).take B.buf.len := by
  simp [Heap.bufBytes, Heap.bytesOf, Heap.bufAt, List.getD_eq_getElem?_getD, ha]

/-- The part of C8 that holds: for a buffer given by reference, the
variable at `a` with a slice header that fits its array,
`WriterFromInterface` returns a writer on `a` itself without touching the
heap, and writing `p` through it appends `p` to the contents of `a`. -/
theorem buffer_by_reference_written (grow : Nat → Nat → Nat) (h : Heap) (a : Nat) (p : Bytes)
    (ha : a < h.bufs.length)
    (hfit : (h.bufAt a).buf.len ≤ (h.bufAt a).buf.cap ∧
      (h.bufAt a).buf.cap ≤ (h.bytes.getD (h.bufAt a).buf.ptr []).length) :
    WriterFromInterface h (some (.bufPtr a)) = (h, .ok (.buffer a)) ∧
    ∃ h1, Writer.Write grow h (.buffer a) p = some (h1, p.length, none) ∧
      h1.bufBytes a = h.bufBytes a ++ p := by
  refine ⟨rfl, ?_⟩
  obtain ⟨hlen, hcap⟩ := hfit
  have hold : h.bufBytes a
      = (h.bytes.getD (h.bufAt a).buf.ptr []).take (h.bufAt a).buf.len := rfl
  have hl : (h.bufAt a).buf.len ≤ (h.bytes.getD (h.bufAt a).buf.ptr []).length :=
    Nat.le_trans hlen hcap
  have htl : ((h.bytes.getD (h.bufAt a).buf.ptr []).take (h.bufAt a).buf.len).length
      = (h.bufAt a).buf.len := by
    rw [List.length_take]; exact Nat.min_eq_left hl
  by_cases hf : (h.bufAt a).buf.len + p.length ≤ (h.bufAt a).buf.cap
  · refine ⟨_, congrArg some (bufferWrite_fit grow h a p hf), ?_⟩
    rw [bufBytes_of_set _ _ h a _ ha, hold]
    simp only []
    by_cases hptr : (h.bufAt a).buf.ptr < h.bytes.length
    · have hget : ∀ x : Bytes,
          (h.bytes.set (h.bufAt a).buf.ptr x).getD (h.bufAt a).buf.ptr [] = x := by
        intro x; simp [List.getD_eq_getElem?_getD, hptr]
      rw [hget, List.append_assoc, List.take_append_eq_append_take, htl]
      simp [List.take_take]
    · have hnil := getD_bytes_nil_of_le h.bytes _ (Nat.le_of_not_lt hptr)
      have hz : (h.bufAt a).buf.cap = 0 := by
        rw [hnil] at hcap; simpa using hcap
      have hp : p = [] := by
        have : p.length = 0 := by omega
        exact List.length_eq_zero.mp this
      have hlz : (h.bufAt a).buf.len = 0 := by omega
      subst hp
      simp [hlz]
  · have hnew : ∀ x : Bytes, (h.bytes ++ [x]).getD h.bytes.length [] = x := by
      intro x; simp [List.getD_eq_getElem?_getD]
    refine ⟨_, congrArg some (bufferWrite_grow grow h a p hf), ?_⟩
    rw [bufBytes_of_set _ _ h a _ ha, hold]
    simp only []
    rw [hnew, List.append_assoc, List.take_append_eq_append_take, htl]
    simp [List.take_take]

/-- An instance of the statement above, at a buffer holding `"a"`,
writing `"b"`. -/
theorem buffer_by_reference_written_witness :
    0 < (⟨[], [], [⟨⟨0, 1, 4⟩⟩], [], [], [[97, 0, 0, 0]]⟩ : Heap).bufs.length ∧
    ∃ h1, Writer.Write goBufGrow ⟨[], [], [⟨⟨0, 1, 4⟩⟩], [], [], [[97, 0, 0, 0]]⟩ (.buffer 0) [98]
        = some (h1, 1, none) ∧
      h1.bufBytes 0 = Heap.bufBytes ⟨[], [], [⟨⟨0, 1, 4⟩⟩], [], [], [[97, 0, 0, 0]]⟩ 0 ++ [98] :=
  ⟨by decide,
   (buffer_by_reference_written goBufGrow ⟨[], [], [⟨⟨0, 1, 4⟩⟩], [], [], [[97, 0, 0, 0]]⟩ 0 [98]
      (by decide) ⟨by decide, by decide⟩).2⟩

/-! ## The debug listener -/

theorem bakeOptsStep_debug (T : CommandTemplate) (o : Opts) (d : Option Nat) :
    bakeOptsStep { T with debug := d } o = { bakeOptsStep T o with debug := d } := by
  unfold bakeOptsStep
  by_cases h1 : o.Cwd = "" <;> by_cases h2 : o.In = none <;> by_cases h3 : o.Out = none <;>
    by_cases h4 : o.Err = none <;> by_cases h5 : o.OkExit = none <;>
    simp [h1, h2, h3, h4, h5]

theorem bakeEnv_debug (T : CommandTemplate) (d : Option Nat) (M : EnvMap) :
    ∀ h : Heap, bakeEnv h { T with debug := d } M =
      ((bakeEnv h T M).1, (bakeEnv h T M).2.map (fun t => { t with debug := d })) := by
  induction M with
  | nil => intro h; rfl
  | cons e M ih =>
    obtain ⟨k, v⟩ := e
    intro h
    simp only [bakeEnv]
    cases hstep : bakeEnvStep h T.Env k v with
    | error e => rfl
    | ok h1 => exact ih h1

theorem applyMods_debug (grow : Nat → Nat → Nat) (d : Option Nat) (ms : List Modifier) :
    ∀ (h : Heap) (T : CommandTemplate), applyMods grow h { T with debug := d } ms =
      ((applyMods grow h T ms).1, (applyMods grow h T ms).2.map (fun t => { t with debug := d })) := by
  induction ms with
  | nil => intro h T; rfl
  | cons m ms ih =>
    intro h T
    cases m with
    | str s => exact ih (bakeArgs grow h T [s]).1 (bakeArgs grow h T [s]).2
    | env M =>
      simp only [applyMods]
      rw [bakeEnv_debug]
      cases hb : bakeEnv h T M with
      | mk h1 r =>
        cases r with
        | error e => rfl
        | ok c1 => exact ih h1 c1
    | clearEnv => exact ih (clearEnv h T).1 (clearEnv h T).2
    | opts o =>
      simp only [applyMods, bakeOpts, List.foldl_cons, List.foldl_nil]
      rw [bakeOptsStep_debug]
      exact ih _ _
    | exposeFlag => rfl
    | other v => rfl

theorem call_debug (W : World) (grow : Nat → Nat → Nat) (d : Option Nat) (h h1 : Heap)
    (f g : Command) (ms : List Modifier) (ev : List Event)
    (hc : f.call W grow h ms = (h1, ev, .ok (.derived g))) :
    (f.Debug d).call W grow h ms = (h1, ev, .ok (.derived (g.Debug d))) := by
  cases ms with
  | nil =>
    simp only [Command.call, closure] at hc
    cases hr : ((enclose f.cmdt).Run W h).2.2 <;> simp [hr, Except.map] at hc
  | cons m ms =>
    have key : ∀ m1, m1 ≠ Modifier.exposeFlag →
        f.call W grow h (m1 :: ms) = (h1, ev, .ok (.derived g)) →
        (f.Debug d).call W grow h (m1 :: ms) = (h1, ev, .ok (.derived (g.Debug d))) := by
      intro m1 hm1 hc1
      have e1 : f.call W grow h (m1 :: ms) = ((applyMods grow h f.cmdt (m1 :: ms)).1, [],
          (applyMods grow h f.cmdt (m1 :: ms)).2.map (fun t => CallResult.derived (enclose t))) := by
        cases m1 <;> first | exact absurd rfl hm1 | rfl
      have e2 : (f.Debug d).call W grow h (m1 :: ms) =
          ((applyMods grow h { f.cmdt with debug := d } (m1 :: ms)).1, [],
            (applyMods grow h { f.cmdt with debug := d } (m1 :: ms)).2.map
              (fun t => CallResult.derived (enclose t))) := by
        cases m1 <;> first | exact absurd rfl hm1 | rfl
      rw [e1] at hc1
      rw [e2, applyMods_debug]
      cases hr : (applyMods grow h f.cmdt (m1 :: ms)).2 with
      | error e => rw [hr] at hc1; simp [Except.map] at hc1
      | ok t =>
        rw [hr] at hc1
        simp only [Except.map, Prod.mk.injEq, Except.ok.injEq, CallResult.derived.injEq] at hc1
        obtain ⟨a1, a2, a3⟩ := hc1
        subst a1; subst a2; subst a3
        rfl
    by_cases hm : m = Modifier.exposeFlag
    · subst hm
      simp [Command.call, closure] at hc
    · exact key m hm hc

theorem callChain_debug (W : World) (grow : Nat → Nat → Nat) (d : Option Nat)
    (calls : List (List Modifier)) :
    ∀ (h h1 : Heap) (f D : Command), callChain W grow h f calls = (h1, some D) →
      callChain W grow h (f.Debug d) calls = (h1, some (D.Debug d)) := by
  induction calls with
  | nil =>
    intro h h1 f D hD
    simp only [callChain, Prod.mk.injEq, Option.some.injEq] at hD
    obtain ⟨a1, a2⟩ := hD
    subst a1; subst a2; rfl
  | cons ms calls ih =>
    intro h h1 f D hD
    cases hcall : f.call W grow h ms with
    | mk h2 r =>
      obtain ⟨ev, res⟩ := r
      cases res with
      | error e => simp [callChain, hcall] at hD
      | ok cr =>
        cases cr with
        | ran => simp [callChain, hcall] at hD
        | exposer t => simp [callChain, hcall] at hD
        | derived g =>
          have hd := call_debug W grow d h h2 f g ms ev hcall
          simp only [callChain, hcall] at hD
          simp only [callChain, hd]
          exact ih h2 h1 g D hD

theorem Start_events (W : World) (h : Heap) (f : Command) :
    ∃ rest, (f.Start W h).2.1 =
        (match f.expose.debug with
          | some cb => [Event.debugCall cb (viewOf h f.expose)]
          | none => []) ++ rest ∧
      (rest = [] ∨ ∃ c, rest = [Event.spawn c]) ∧
      ((f.Start W h).2.2.toOption.isSome = true → ∃ c, rest = [Event.spawn c]) := by
  unfold Command.Start
  simp only []
  split
  · exact ⟨[], by simp, Or.inl rfl, by simp [Except.toOption]⟩
  · split
    · exact ⟨[], by simp, Or.inl rfl, by simp [Except.toOption]⟩
    · split
      · exact ⟨[], by simp, Or.inl rfl, by simp [Except.toOption]⟩
      · split
        · exact ⟨[], by simp, Or.inl rfl, by simp [Except.toOption]⟩
        · exact ⟨[.spawn _], rfl, Or.inr ⟨_, rfl⟩, fun _ => ⟨_, rfl⟩⟩

theorem Run_events (W : World) (h : Heap) (f : Command) :
    (f.Run W h).2.1 = (f.Start W h).2.1 := by
  unfold Command.Run
  cases hs : f.Start W h with
  | mk h1 r =>
    obtain ⟨ev, res⟩ := r
    cases res with
    | error e => rfl
    | ok rc =>
      simp only
      split <;> rfl

/-- The part of C10 that holds, for a start on the very heap `h1` the
derivation left: for every command `C`, listener `cb` and chain of
modifier calls that takes `C` to a command `D`, the same calls take
`C.Debug(cb)` to `D` with the listener registered; starting (or running)
that command on `h1` calls `cb` first and once, followed by nothing but
the spawn of the process, and what `cb` reads through the template it
receives is what `D` exposes on `h1`. -/
theorem Debug_listener_sees_resolved_template (W : World) (grow : Nat → Nat → Nat)
    (h h1 : Heap) (C D : Command) (cb : Nat) (calls : List (List Modifier))
    (hD : callChain W grow h C calls = (h1, some D)) :
    callChain W grow h (C.Debug (some cb)) calls = (h1, some (D.Debug (some cb))) ∧
    (∃ rest, ((D.Debug (some cb)).Start W h1).2.1
        = Event.debugCall cb (viewOf h1 D.expose) :: rest ∧
      (rest = [] ∨ ∃ c, rest = [Event.spawn c]) ∧
      (((D.Debug (some cb)).Start W h1).2.2.toOption.isSome = true →
        ∃ c, rest = [Event.spawn c])) ∧
    ((D.Debug (some cb)).Run W h1).2.1 = ((D.Debug (some cb)).Start W h1).2.1 := by
  refine ⟨callChain_debug W grow (some cb) calls h h1 C D hD, ?_, Run_events W h1 _⟩
  obtain ⟨rest, e, hr, hs⟩ := Start_events W h1 (D.Debug (some cb))
  exact ⟨rest, e, hr, hs⟩

/-- An instance of the statement above, at
`Sh("echo").Debug(cb)("alpha", "beta")` with listener 7: the listener
reads the arguments `["alpha", "beta"]`. -/
theorem Debug_listener_sees_resolved_template_witness :
    callChain (World.exiting 0) goGrow (Sh Heap.empty [] "echo").1 (Sh Heap.empty [] "echo").2
        [[.str "alpha", .str "beta"]]
      = (⟨[["alpha"], ["alpha", "beta"]], [[]], [], [], [], []⟩,
         some ⟨⟨"echo", ⟨1, 2, 2⟩, some 0, "", none, none, none, some [0], none⟩⟩) ∧
    viewOf ⟨[["alpha"], ["alpha", "beta"]], [[]], [], [], [], []⟩
        (Command.expose ⟨⟨"echo", ⟨1, 2, 2⟩, some 0, "", none, none, none, some [0], none⟩⟩)
      = ⟨"echo", ["alpha", "beta"], some [], "", none, none, none, some [0]⟩ ∧
    ∃ rest, ((Command.Debug ⟨⟨"echo", ⟨1, 2, 2⟩, some 0, "", none, none, none, some [0], none⟩⟩
          (some 7)).Start (World.exiting 0)
          ⟨[["alpha"], ["alpha", "beta"]], [[]], [], [], [], []⟩).2.1
        = Event.debugCall 7 (viewOf ⟨[["alpha"], ["alpha", "beta"]], [[]], [], [], [], []⟩
            (Command.expose
              ⟨⟨"echo", ⟨1, 2, 2⟩, some 0, "", none, none, none, some [0], none⟩⟩)) :: rest ∧
      (rest = [] ∨ ∃ c, rest = [Event.spawn c]) ∧
      (((Command.Debug ⟨⟨"echo", ⟨1, 2, 2⟩, some 0, "", none, none, none, some [0], none⟩⟩
          (some 7)).Start (World.exiting 0)
          ⟨[["alpha"], ["alpha", "beta"]], [[]], [], [], [], []⟩).2.2.toOption.isSome = true →
        ∃ c, rest = [Event.spawn c]) :=
  ⟨rfl, rfl,
   (Debug_listener_sees_resolved_template (World.exiting 0) goGrow
      (Sh Heap.empty [] "echo").1 ⟨[["alpha"], ["alpha", "beta"]], [[]], [], [], [], []⟩
      (Sh Heap.empty [] "echo").2
      ⟨⟨"echo", ⟨1, 2, 2⟩, some 0, "", none, none, none, some [0], none⟩⟩ 7
      [[.str "alpha", .str "beta"]] rfl).2.1⟩

/-- The test `TestIntegration_ShDebug`: for
`Sh("echo")("alpha", "beta").Debug(cb)()` the events are the call of the
listener, which reads the arguments `["alpha", "beta"]`, and then the
spawn. -/
theorem ShDebug_test_trace :
    (Command.call (World.exiting 0) goGrow ⟨[["alpha"], ["alpha", "beta"]], [[]], [], [], [], []⟩
        (Command.Debug ⟨⟨"echo", ⟨1, 2, 2⟩, some 0, "", none, none, none, some [0], none⟩⟩
          (some 7)) []).2
      = ([Event.debugCall 7 ⟨"echo", ["alpha", "beta"], some [], "", none, none, none, some [0]⟩,
          Event.spawn ⟨"echo", ["echo", "alpha", "beta"], some [], "", none, none, none⟩],
         .ok .ran) :=
  rfl

/-! ## Where derivation shares state -/

/-- C1, at `C = Sh("echo")` in an environment holding `HOME=/root` and
`M = Env{"HOME": ""}`: the call `C(M)` returns a command, and the
environment `C` exposes, `HOME=/root` before the call, is empty after
it. -/
theorem derived_Env_changes_ancestor :
    Sh Heap.empty [("HOME", "/root")] "echo"
      = (⟨[], [[("HOME", "/root")]], [], [], [], []⟩,
         ⟨⟨"echo", ⟨0, 0, 0⟩, some 0, "", none, none, none, some [0], none⟩⟩) ∧
    envOf ⟨[], [[("HOME", "/root")]], [], [], [], []⟩
        (Command.expose ⟨⟨"echo", ⟨0, 0, 0⟩, some 0, "", none, none, none, some [0], none⟩⟩)
      = some [("HOME", "/root")] ∧
    Command.call (World.exiting 0) goGrow ⟨[], [[("HOME", "/root")]], [], [], [], []⟩
        ⟨⟨"echo", ⟨0, 0, 0⟩, some 0, "", none, none, none, some [0], none⟩⟩
        [.env [("HOME", "")]]
      = (⟨[], [[]], [], [], [], []⟩, [],
         .ok (.derived ⟨⟨"echo", ⟨0, 0, 0⟩, some 0, "", none, none, none, some [0], none⟩⟩)) ∧
    envOf ⟨[], [[]], [], [], [], []⟩
        (Command.expose ⟨⟨"echo", ⟨0, 0, 0⟩, some 0, "", none, none, none, some [0], none⟩⟩)
      = some [] :=
  ⟨rfl, rfl, rfl, rfl⟩

/-- C2, at `C = Sh("echo")("a")("b")("c")`, `x = "x"`, `y = "y"`, with
the capacities the gc runtime gives: `C` has length 3 and capacity 4;
`D1 = C("x")` reads `a b c x` when it is made; after `D2 = C("y")` both
`D2` and `D1` read `a b c y`. -/
theorem sibling_argument_overwritten :
    callChain (World.exiting 0) goGrow (Sh Heap.empty [] "echo").1 (Sh Heap.empty [] "echo").2
        [[.str "a"], [.str "b"], [.str "c"]]
      = (⟨[["a"], ["a", "b"], ["a", "b", "c", ""]], [[]], [], [], [], []⟩,
         some ⟨⟨"echo", ⟨2, 3, 4⟩, some 0, "", none, none, none, some [0], none⟩⟩) ∧
    Command.call (World.exiting 0) goGrow
        ⟨[["a"], ["a", "b"], ["a", "b", "c", ""]], [[]], [], [], [], []⟩
        ⟨⟨"echo", ⟨2, 3, 4⟩, some 0, "", none, none, none, some [0], none⟩⟩ [.str "x"]
      = (⟨[["a"], ["a", "b"], ["a", "b", "c", "x"]], [[]], [], [], [], []⟩, [],
         .ok (.derived ⟨⟨"echo", ⟨2, 4, 4⟩, some 0, "", none, none, none, some [0], none⟩⟩)) ∧
    readSlice ⟨[["a"], ["a", "b"], ["a", "b", "c", "x"]], [[]], [], [], [], []⟩ ⟨2, 4, 4⟩
      = ["a", "b", "c", "x"] ∧
    Command.call (World.exiting 0) goGrow
        ⟨[["a"], ["a", "b"], ["a", "b", "c", "x"]], [[]], [], [], [], []⟩
        ⟨⟨"echo", ⟨2, 3, 4⟩, some 0, "", none, none, none, some [0], none⟩⟩ [.str "y"]
      = (⟨[["a"], ["a", "b"], ["a", "b", "c", "y"]], [[]], [], [], [], []⟩, [],
         .ok (.derived ⟨⟨"echo", ⟨2, 4, 4⟩, some 0, "", none, none, none, some [0], none⟩⟩)) ∧
    readSlice ⟨[["a"], ["a", "b"], ["a", "b", "c", "y"]], [[]], [], [], [], []⟩ ⟨2, 4, 4⟩
      = ["a", "b", "c", "y"] ∧
    readSlice ⟨[["a"], ["a", "b"], ["a", "b", "c", "y"]], [[]], [], [], [], []⟩ ⟨2, 4, 4⟩
      ≠ readSlice ⟨[["a"], ["a", "b"], ["a", "b", "c", "y"]], [[]], [], [], [], []⟩ ⟨2, 3, 4⟩
          ++ ["x"] :=
  ⟨rfl, rfl, rfl, rfl, rfl, by decide⟩

/-- C7, at the modifier `[]string{"a"}` and at the nil modifier: the call
panics with `IncomprehensibleCommandModifier` holding the value, but the
message of the first names no type (the name between the quotes is
empty), and producing the message of the second panics inside
`reflect`. -/
theorem unnamed_type_message_names_nothing (W : World) (grow : Nat → Nat → Nat) (h : Heap)
    (T : CommandTemplate) :
    closure W grow h T [.other (.plain (.literal "[]string"))]
      = (h, [], .error (.IncomprehensibleCommandModifier (.other (.plain (.literal "[]string")))))
    ∧ IncomprehensibleCommandModifier.Error (.other (.plain (.literal "[]string")))
      = .ok "gosh: incomprehensible command modifier: do not want type \"\""
    ∧ closure W grow h T [.other .zero]
      = (h, [], .error (.IncomprehensibleCommandModifier (.other .zero)))
    ∧ IncomprehensibleCommandModifier.Error (.other .zero)
      = .error (.runtimeError "reflect: call of reflect.Value.Type on zero Value") :=
  ⟨rfl, rfl, rfl, rfl⟩

/-- C10, at `C = Sh("echo")("a")("b")("c")`, listener 7 and the one
modifier call `("x")`: `D = C.Debug(cb)("x")` exposes the arguments
`a b c x` when it is made; after the sibling `C("y")` has been derived,
running `D` calls the listener once, before the spawn, but the template
it receives reads `a b c y`, and so does the spawned process. -/
theorem listener_reads_sibling_argument :
    callChain (World.exiting 0) goGrow (Sh Heap.empty [] "echo").1 (Sh Heap.empty [] "echo").2
        [[.str "a"], [.str "b"], [.str "c"]]
      = (⟨[["a"], ["a", "b"], ["a", "b", "c", ""]], [[]], [], [], [], []⟩,
         some ⟨⟨"echo", ⟨2, 3, 4⟩, some 0, "", none, none, none, some [0], none⟩⟩) ∧
    Command.call (World.exiting 0) goGrow
        ⟨[["a"], ["a", "b"], ["a", "b", "c", ""]], [[]], [], [], [], []⟩
        (Command.Debug ⟨⟨"echo", ⟨2, 3, 4⟩, some 0, "", none, none, none, some [0], none⟩⟩
          (some 7)) [.str "x"]
      = (⟨[["a"], ["a", "b"], ["a", "b", "c", "x"]], [[]], [], [], [], []⟩, [],
         .ok (.derived ⟨⟨"echo", ⟨2, 4, 4⟩, some 0, "", none, none, none, some [0], some 7⟩⟩)) ∧
    viewOf ⟨[["a"], ["a", "b"], ["a", "b", "c", "x"]], [[]], [], [], [], []⟩
        (Command.expose ⟨⟨"echo", ⟨2, 4, 4⟩, some 0, "", none, none, none, some [0], some 7⟩⟩)
      = ⟨"echo", ["a", "b", "c", "x"], some [], "", none, none, none, some [0]⟩ ∧
    Command.call (World.exiting 0) goGrow
        ⟨[["a"], ["a", "b"], ["a", "b", "c", "x"]], [[]], [], [], [], []⟩
        ⟨⟨"echo", ⟨2, 3, 4⟩, some 0, "", none, none, none, some [0], none⟩⟩ [.str "y"]
      = (⟨[["a"], ["a", "b"], ["a", "b", "c", "y"]], [[]], [], [], [], []⟩, [],
         .ok (.derived ⟨⟨"echo", ⟨2, 4, 4⟩, some 0, "", none, none, none, some [0], none⟩⟩)) ∧
    (Command.call (World.exiting 0) goGrow
        ⟨[["a"], ["a", "b"], ["a", "b", "c", "y"]], [[]], [], [], [], []⟩
        ⟨⟨"echo", ⟨2, 4, 4⟩, some 0, "", none, none, none, some [0], some 7⟩⟩ []).2
      = ([Event.debugCall 7
            ⟨"echo", ["a", "b", "c", "y"], some [], "", none, none, none, some [0]⟩,
          Event.spawn ⟨"echo", ["echo", "a", "b", "c", "y"], some [], "", none, none, none⟩],
         .ok .ran) ∧
    (⟨"echo", ["a", "b", "c", "y"], some [], "", none, none, none, some [0]⟩ : TemplateView)
      ≠ ⟨"echo", ["a", "b", "c", "x"], some [], "", none, none, none, some [0]⟩ :=
  ⟨rfl, rfl, rfl, rfl, rfl, by decide⟩

/-! ## What derivation does keep apart -/

theorem getD_nil_of_le {α : Type} (l : List (List α)) (i : Nat) (hi : l.length ≤ i) :
    l.getD i [] = [] := by
  simp [List.getD_eq_getElem?_getD, List.getElem?_eq_none hi]

theorem getD_append_left {α : Type} (l : List (List α)) (a : List α) (i : Nat) :
    ((l ++ [a]).getD i []).take ((l.getD i []).length) = l.getD i [] := by
  by_cases hi : i < l.length
  · simp [List.getD_eq_getElem?_getD, List.getElem?_append_left hi]
  · rw [getD_nil_of_le l i (Nat.le_of_not_lt hi)]
    simp

/-- Appending one string: the new slice reads as the old one followed by
the string, and the old slice header still reads as before. -/
theorem sliceAppend_one (grow : Nat → Nat → Nat) (h : Heap) (s : StrSlice) (x : String)
    (hs : sliceOk h s) :
    readSlice (sliceAppend grow h s [x]).1 (sliceAppend grow h s [x]).2 = readSlice h s ++ [x] ∧
    readSlice (sliceAppend grow h s [x]).1 s = readSlice h s := by
  obtain ⟨hlen, hcap⟩ := hs
  have hl : s.len ≤ (h.arrays.getD s.ptr []).length := Nat.le_trans hlen hcap
  by_cases hfit : s.len + 1 ≤ s.cap
  · have hpos : 0 < (h.arrays.getD s.ptr []).length := by omega
    have hptr : s.ptr < h.arrays.length := by
      by_contra hc
      rw [getD_nil_of_le _ _ (Nat.le_of_not_lt hc)] at hpos
      simp at hpos
    have hget : ∀ a : List String, (h.arrays.set s.ptr a).getD s.ptr [] = a := by
      intro a; simp [List.getD_eq_getElem?_getD, hptr]
    have htl : ((h.arrays.getD s.ptr []).take s.len).length = s.len := by
      rw [List.length_take]; exact Nat.min_eq_left hl
    simp only [sliceAppend, List.length_singleton, hfit, if_true, readSlice, hget]
    constructor
    · rw [List.append_assoc, List.take_append_eq_append_take, htl]
      simp [List.take_take]
    · rw [List.append_assoc, List.take_append_eq_append_take, htl]
      simp [List.take_take]
  · have hnew : ∀ a : List String, (h.arrays ++ [a]).getD h.arrays.length [] = a := by
      intro a; simp [List.getD_eq_getElem?_getD]
    have htl : ((h.arrays.getD s.ptr []).take s.len).length = s.len := by
      rw [List.length_take]; exact Nat.min_eq_left hl
    simp only [sliceAppend, List.length_singleton, hfit, if_false, readSlice, hnew]
    constructor
    · rw [List.append_assoc, List.take_append_eq_append_take, htl]
      simp [List.take_take]
    · by_cases hptr : s.ptr < h.arrays.length
      · simp [List.getD_eq_getElem?_getD, List.getElem?_append_left hptr]
      · have hnil := getD_nil_of_le h.arrays s.ptr (Nat.le_of_not_lt hptr)
        have hz : s.len = 0 := by
          rw [hnil] at hl
          simpa using hl
        rw [hz]
        simp

/-- The part of C2 that holds: for every command `C` whose argument slice
fits its array, the command that `C(x)` returns reads, right after the
call, the arguments of `C` followed by `x`, and `C` reads its own
arguments as before. -/
theorem string_modifier_appends (W : World) (grow : Nat → Nat → Nat) (h : Heap) (C : Command)
    (x : String) (hs : sliceOk h C.cmdt.Args) :
    ∃ h1 D, C.call W grow h [.str x] = (h1, [], .ok (.derived D)) ∧
      readSlice h1 D.expose.Args = readSlice h C.expose.Args ++ [x] ∧
      readSlice h1 C.expose.Args = readSlice h C.expose.Args := by
  obtain ⟨a, b⟩ := sliceAppend_one grow h C.cmdt.Args x hs
  exact ⟨_, _, rfl, a, b⟩

/-- The part of C1 that holds: a call with one string, one `ClearEnv` or
one `Opts` returns a command and leaves what the ancestor exposes
(program, arguments, environment, directory, streams, accepted codes) as
it was, provided the ancestor's slice fits its array and its map
reference points into the heap. -/
theorem ancestor_unchanged_without_Env (W : World) (grow : Nat → Nat → Nat) (h : Heap)
    (C : Command) (m : Modifier) (hs : sliceOk h C.cmdt.Args)
    (hE : ∀ r, C.cmdt.Env = some r → r < h.maps.length)
    (hm : (∃ x, m = .str x) ∨ m = .clearEnv ∨ ∃ o, m = .opts o) :
    ∃ h1 D, C.call W grow h [m] = (h1, [], .ok (.derived D)) ∧
      viewOf h1 C.expose = viewOf h C.expose := by
  rcases hm with ⟨x, rfl⟩ | rfl | ⟨o, rfl⟩
  · obtain ⟨_, b⟩ := sliceAppend_one grow h C.cmdt.Args x hs
    refine ⟨_, _, rfl, ?_⟩
    have hb : readSlice (sliceAppend grow h C.cmdt.Args [x]).1 C.cmdt.Args
        = readSlice h C.cmdt.Args := b
    have hmaps : (sliceAppend grow h C.cmdt.Args [x]).1.maps = h.maps := by
      unfold sliceAppend; simp only []; split <;> rfl
    have hmap : (sliceAppend grow h C.cmdt.Args [x]).1.mapAt = h.mapAt := by
      funext r
      simp only [Heap.mapAt, hmaps]
    simp only [viewOf, Command.expose, applyMods, bakeArgs, hb, envOf, hmap]
  · refine ⟨_, _, rfl, ?_⟩
    have henv : envOf (clearEnv h C.cmdt).1 C.cmdt = envOf h C.cmdt := by
      cases hr : C.cmdt.Env with
      | none => simp [envOf, hr]
      | some r =>
        have := hE r hr
        simp [envOf, hr, clearEnv, Heap.mapAt, List.getD_eq_getElem?_getD,
          List.getElem?_append_left this]
    simp only [viewOf, Command.expose, applyMods] at henv ⊢
    rw [henv]
    rfl
  · exact ⟨_, _, rfl, rfl⟩

/-- An instance of the two statements above, at `Sh("echo")("a")`. -/
theorem string_modifier_appends_witness :
    sliceOk ⟨[["a"]], [[]], [], [], [], []⟩ (⟨0, 1, 1⟩ : StrSlice) ∧
    ∃ h1 D, Command.call (World.exiting 0) goGrow ⟨[["a"]], [[]], [], [], [], []⟩
        ⟨⟨"echo", ⟨0, 1, 1⟩, some 0, "", none, none, none, some [0], none⟩⟩ [.str "b"]
        = (h1, [], .ok (.derived D)) ∧
      readSlice h1 D.expose.Args = ["a"] ++ ["b"] ∧
      readSlice h1 (⟨0, 1, 1⟩ : StrSlice) = ["a"] :=
  ⟨⟨by decide, by decide⟩,
   string_modifier_appends (World.exiting 0) goGrow ⟨[["a"]], [[]], [], [], [], []⟩
     ⟨⟨"echo", ⟨0, 1, 1⟩, some 0, "", none, none, none, some [0], none⟩⟩ "b"
     ⟨by decide, by decide⟩⟩

/-! ## Unknown modifiers -/

/-- The part of C7 that holds: when the modifiers before the first
unknown one are of the four known kinds and the environment map is not
nil, the call panics with `IncomprehensibleCommandModifier` holding that
first unknown value. -/
theorem unknown_modifier_panics (W : World) (grow : Nat → Nat → Nat) (v : RValue)
    (post : List Modifier) (pre : List Modifier) (hpre : ∀ m ∈ pre, isKnown m = true) :
    ∀ (h : Heap) (T : CommandTemplate), T.Env.isSome = true →
      ∃ h1, closure W grow h T (pre ++ .other v :: post)
        = (h1, [], .error (.IncomprehensibleCommandModifier (.other v))) := by
  have key : ∀ (pre : List Modifier), (∀ m ∈ pre, isKnown m = true) →
      ∀ (h : Heap) (T : CommandTemplate), T.Env.isSome = true →
        ∃ h1, applyMods grow h T (pre ++ .other v :: post)
          = (h1, .error (.IncomprehensibleCommandModifier (.other v))) := by
    intro pre
    induction pre with
    | nil => intro _ h T _; exact ⟨h, rfl⟩
    | cons m pre ih =>
      intro hk h T hE
      have hrest : ∀ m1 ∈ pre, isKnown m1 = true :=
        fun m1 hm1 => hk m1 (List.mem_cons_of_mem _ hm1)
      have hm := hk m (List.mem_cons_self _ _)
      cases m with
      | str s =>
        exact ih hrest (bakeArgs grow h T [s]).1 (bakeArgs grow h T [s]).2
          (by simpa [bakeArgs] using hE)
      | env M =>
        obtain ⟨r, hr⟩ := Option.isSome_iff_exists.mp hE
        have hok := bakeEnv_ok T r hr M h
        have hpair : bakeEnv h T M = ((bakeEnv h T M).1, .ok T) := by rw [← hok]
        obtain ⟨h1, e⟩ := ih hrest (bakeEnv h T M).1 T hE
        refine ⟨h1, ?_⟩
        simp only [List.cons_append, applyMods]
        rw [hpair]
        exact e
      | clearEnv => exact ih hrest (clearEnv h T).1 (clearEnv h T).2 (by simp [clearEnv])
      | opts o =>
        exact ih hrest h (bakeOpts T [o])
          (by simpa [bakeOpts, (bakeOptsStep_fields T o).2.2.2.2.2.2.2.1] using hE)
      | exposeFlag => simp [isKnown] at hm
      | other w => simp [isKnown] at hm
  intro h T hE
  obtain ⟨h1, e⟩ := key pre hpre h T hE
  refine ⟨h1, ?_⟩
  cases pre with
  | nil =>
    simp only [List.nil_append] at e ⊢
    simp [closure, e, Except.map]
  | cons m pre =>
    have hm := hpre m (List.mem_cons_self _ _)
    simp only [List.cons_append] at e
    cases m <;> first
      | (simp [isKnown] at hm; done)
      | simp [closure, e, Except.map]

/-- For a value of a defined type, and for a pointer to one, the message
does name the type. -/
theorem defined_type_message (n : String) :
    IncomprehensibleCommandModifier.Error (.other (.plain (.defined n)))
      = .ok ("gosh: incomprehensible command modifier: do not want type \"" ++ n ++ "\"") ∧
    IncomprehensibleCommandModifier.Error (.other (.ptr (.plain (.defined n))))
      = .ok ("gosh: incomprehensible command modifier: do not want type \"" ++ ("*" ++ n)
          ++ "\"") :=
  ⟨rfl, rfl⟩

end Gosh
